import Mathlib

/-!
Verification of the license-expression parser and renderer of
`src/attribution_generator/license_manager.py` (class `LicenseManager`).

Strings are modelled as `List Char`.  Whitespace (`str.strip` and the regex
class `\s`) uses Python's full table.  `str.upper`/`str.lower` are modelled
for the ASCII range: the only uses are the 4/5-character window comparisons
against `" OR "`/`" AND "` — where a window can equal the operator only via
the ASCII mappings, since no other character uppercases to `O`, `R`, `A`,
`N`, `D` or space — and the lowercased dictionary keys of the claims.
Machinery:

* `splitGo` / `split_top` embed the nested helper `split_top` of
  `_parse_expr` (character scan with a parenthesis-depth counter).
* `parenWrapped` embeds the `for ... else` depth-balance scan that decides
  whether one fully matching outer parenthesis pair wraps the string.
* `tryWith` / `withFind` embed `re.match(r'^(.*?)(?:\s+WITH\s+)(.+)$', expr,
  re.IGNORECASE)`: `withFind` walks the lazy `(.*?)` prefix left to right,
  `tryWith` matches `\s+WITH\s+(.+)$` at the current position (`\s` is
  Python's full whitespace table, the `WITH` literal is matched with sre's
  IGNORECASE case-equivalence classes, `.` is any character except `'\n'`;
  `$` is end of input, which agrees with Python because `_parse_expr` strips
  its argument first, so there is no trailing newline for `$` to sit in front
  of).
* `parseF` is `_parse_expr` with an explicit fuel argument; every recursive
  call of the Python function is on a strictly shorter string, so the fuel
  `length + 1` used by `parse` never runs out.
* `get_individual_license_text`, `renderNode`, `get_license_text` embed the
  renderer; the instance field `missing_licenses` (a Python `set`) is passed
  and returned explicitly as a `Finset (List Char)`.
-/

/-- Python whitespace test: the exact character set recognized by
`str.strip()` and by the regex class `\s` on `str` patterns (CPython uses the
same `Py_UNICODE_ISSPACE` table for both): TAB..CR (U+0009-U+000D), the
separators U+001C-U+001F, space, NEL (U+0085), NBSP (U+00A0), Ogham space
mark (U+1680), the typographic spaces U+2000-U+200A, the line and paragraph
separators U+2028/U+2029, U+202F, U+205F and the ideographic space U+3000. -/
def pyIsSpace (c : Char) : Bool :=
  decide (c.toNat = 32 ∨ (9 ≤ c.toNat ∧ c.toNat ≤ 13) ∨ (28 ≤ c.toNat ∧ c.toNat ≤ 31) ∨
    c.toNat = 133 ∨ c.toNat = 160 ∨ c.toNat = 5760 ∨
    (8192 ≤ c.toNat ∧ c.toNat ≤ 8202) ∨ c.toNat = 8232 ∨ c.toNat = 8233 ∨
    c.toNat = 8239 ∨ c.toNat = 8287 ∨ c.toNat = 12288)

/-- Python `str.upper`, per character, ASCII range. -/
def pyToUpper (c : Char) : Char :=
  if 97 ≤ c.toNat ∧ c.toNat ≤ 122 then Char.ofNat (c.toNat - 32) else c

/-- Python `str.lower`, per character, ASCII range. -/
def pyToLower (c : Char) : Char :=
  if 65 ≤ c.toNat ∧ c.toNat ≤ 90 then Char.ofNat (c.toNat + 32) else c

/-- One input character matching the regex literal `W`/`T`/`H` under
`re.IGNORECASE`: sre lowercases the input character with the Unicode simple
mapping and compares it with the lowercased pattern letter; for these letters
only the two ASCII cases qualify. -/
def matchW (c : Char) : Bool := c == 'W' || c == 'w'

def matchT (c : Char) : Bool := c == 'T' || c == 't'

def matchH (c : Char) : Bool := c == 'H' || c == 'h'

/-- One input character matching the regex literal `I` under `re.IGNORECASE`:
sre expands the case-equivalence class of `i` (see `sre_compile`), so besides
`I`/`i` the dotless `ı` (U+0131) and dotted `İ` (U+0130) match as well. -/
def matchI (c : Char) : Bool := c == 'I' || c == 'i' || c == 'ı' || c == 'İ'

/-- A four-character window matching the literal `WITH` of the regex under
`re.IGNORECASE`. -/
def isWITHCI : List Char → Bool
  | [c1, c2, c3, c4] => matchW c1 && matchI c2 && matchT c3 && matchH c4
  | _ => false

/-- Remove trailing whitespace (the right half of Python `str.strip`). -/
def dropTrail (l : List Char) : List Char :=
  (l.reverse.dropWhile pyIsSpace).reverse

/-- Python `str.strip()`. -/
def pyStrip (l : List Char) : List Char :=
  dropTrail (l.dropWhile pyIsSpace)

/-- String literal to character list. -/
def s2l (s : String) : List Char := s.data

/-- `str.lower` on a whole string. -/
def lowerStr (l : List Char) : List Char := l.map pyToLower

/-- The expression tree built by `_parse_expr` (`LicenseManager.ExprNode`:
`kind` is one of `'LEAF'`, `'WITH'`, `'AND'`, `'OR'`; a `WITH` node keeps the
unparsed exception text). -/
inductive ExprNode where
  | leaf (value : List Char)
  | withE (left : ExprNode) (exception : List Char)
  | andE (left : ExprNode) (right : ExprNode)
  | orE (left : ExprNode) (right : ExprNode)
deriving DecidableEq, Repr

/-- The scanning loop of `split_top` inside `_parse_expr`: walk the string,
counting parenthesis depth; at depth 0 an occurrence of `op` (compared
case-insensitively via `upper`) ends the current segment, which is appended
(stripped) to `res`; the scan resumes after the operator.  `acc` is the raw
text of the current segment (`expr[last:i]`). -/
def splitGo (op : List Char) : List Char → Int → List Char → List (List Char) → List (List Char)
  | [], _, acc, res => if acc = [] then res else res ++ [pyStrip acc]
  | c :: rest, depth, acc, res =>
    if c = '(' then splitGo op rest (depth + 1) (acc ++ [c]) res
    else if c = ')' then splitGo op rest (depth - 1) (acc ++ [c]) res
    else if depth = 0 ∧ ((c :: rest).take op.length).map pyToUpper = op then
      splitGo op (rest.drop (op.length - 1)) 0 [] (res ++ [pyStrip acc])
    else splitGo op rest depth (acc ++ [c]) res
termination_by l _ _ _ => l.length
decreasing_by
  all_goals simp_wf
  all_goals omega

/-- `split_top(expr, op)`: the segments if there are at least two, else
`None`. -/
def split_top (expr op : List Char) : Option (List (List Char)) :=
  let res := splitGo op expr 0 [] []
  if res.length > 1 then some res else none

/-- The `for ... else` scan of `_parse_expr` that checks whether the leading
`'('` matches the final `')'`: the depth counter must return to 0 only at the
last character. -/
def parenWrapped : List Char → Int → Bool
  | [], _ => true
  | c :: rest, depth =>
    let d := depth + (if c = '(' then 1 else 0) - (if c = ')' then 1 else 0)
    if d = 0 ∧ rest ≠ [] then false else parenWrapped rest d

/-- Match `\s+WITH\s+(.+)$` at the start of `l` (the part of the `WITH`
regex after the lazy group), returning group 2.  The first `\s+` must end
exactly where `WITH` starts (whitespace cannot spell `WITH`), so it is the
maximal whitespace run; the second `\s+` is greedy, backtracking by one
character at most when nothing would remain for `(.+)` — that character must
not be `'\n'`, which `.` refuses. -/
def tryWith (l : List Char) : Option (List Char) :=
  let r := l.takeWhile pyIsSpace
  if r = [] then none else
  let rest := l.dropWhile pyIsSpace
  if isWITHCI (rest.take 4) then
    let rest2 := rest.drop 4
    let r2 := rest2.takeWhile pyIsSpace
    if r2 = [] then none else
    let tail := rest2.dropWhile pyIsSpace
    if tail ≠ [] then
      if tail.all (fun c => c ≠ '\n') then some tail else none
    else
      match r2.getLast? with
      | some c => if 2 ≤ r2.length ∧ c ≠ '\n' then some [c] else none
      | none => none
  else none

/-- The lazy `(.*?)` group: try the shortest prefix first; `.` cannot cross a
newline.  Returns `(group 1, group 2)` of the `WITH` regex. -/
def withFind (g1 : List Char) : List Char → Option (List Char × List Char)
  | [] =>
    match tryWith [] with
    | some g2 => some (g1, g2)
    | none => none
  | c :: rest =>
    match tryWith (c :: rest) with
    | some g2 => some (g1, g2)
    | none => if c = '\n' then none else withFind (g1 ++ [c]) rest

/-- The operator list of `_parse_expr`: `' OR '` is tried before `' AND '`. -/
def orOp : List Char := [' ', 'O', 'R', ' ']

def andOp : List Char := [' ', 'A', 'N', 'D', ' ']

/-- The literal `" WITH "` separator as it appears in the claims. -/
def withSep : List Char := [' ', 'W', 'I', 'T', 'H', ' ']

/-- `_parse_expr` with explicit fuel.  Each Python-level recursive call is on
a strictly shorter string (a parenthesis pair, an operator, or a `WITH`
separator is removed), so fuel `length + 1` (see `parse`) always suffices;
the fuel-0 fallback is never reached. -/
def parseF : Nat → List Char → ExprNode
  | 0, expr => .leaf (pyStrip expr)
  | fuel + 1, expr =>
    let e := pyStrip expr
    if e.head? = some '(' ∧ e.getLast? = some ')' ∧ parenWrapped e 0 then
      parseF fuel (pyStrip (e.drop 1).dropLast)
    else
      match split_top e orOp with
      | some parts =>
        match parts with
        | [] => .leaf e   -- unreachable: a successful split has ≥ 2 parts
        | p :: ps => (ps.map (parseF fuel)).foldl .orE (parseF fuel p)
      | none =>
        match split_top e andOp with
        | some parts =>
          match parts with
          | [] => .leaf e   -- unreachable: a successful split has ≥ 2 parts
          | p :: ps => (ps.map (parseF fuel)).foldl .andE (parseF fuel p)
        | none =>
          match withFind [] e with
          | some g => .withE (parseF fuel (pyStrip g.1)) (pyStrip g.2)
          | none => .leaf e

/-- `LicenseManager._parse_expr`. -/
def parse (expr : List Char) : ExprNode := parseF (expr.length + 1) expr

/-- Python `dict` lookup (`self.licenses[k]` / `.get`); the loader lowercases
every key, so the table is keyed by lowercased ids. -/
def dictGet (k : List Char) : List (List Char × List Char) → Option (List Char)
  | [] => none
  | (k', v) :: rest => if k = k' then some v else dictGet k rest

/-- The built-in fallback text used for `"others"` when `others_definition`
is not configured. -/
def othersFallback : List Char :=
  s2l "[This component is subject to additional terms or conditions, often specified by the copyright holder or in accompanying notices. These 'other' terms should be detailed here, in a referenced document, or by defining 'OTHERS_DEFINITION' in your licenses.yaml. Specific URLs may be listed with components below.]"

/-- `LicenseManager._get_individual_license_text`.  Returns
`((header, text), missing_licenses)`; the `missing_licenses` set of the
instance is threaded explicitly. -/
def get_individual_license_text (licenses : List (List Char × List Char))
    (cfgPath : List Char) (missing : Finset (List Char))
    (lic_id : List Char) (include_header : Bool) :
    (List Char × List Char) × Finset (List Char) :=
  let header := if include_header then s2l "For license: " ++ lic_id else []
  if lowerStr lic_id = s2l "others" then
    ((s2l "Regarding " ++ ['\''] ++ lic_id ++ ['\''] ++ s2l " conditions:",
      (dictGet (s2l "others_definition") licenses).getD othersFallback), missing)
  else
    match dictGet (lowerStr lic_id) licenses with
    | some t => ((header, t), missing)
    | none =>
      ((header,
        s2l "ERROR: License text for " ++ ['\''] ++ lic_id ++ ['\''] ++
          s2l " not found in " ++ ['\''] ++ cfgPath ++ ['\''] ++
          s2l ". Please add the full text for this license."),
        insert lic_id missing)

/-- The nested `render` function of `get_license_text`: walk the tree,
producing the attribution text and threading the `missing_licenses` set. -/
def renderNode (licenses : List (List Char × List Char)) (cfgPath : List Char)
    (hdr : Bool) : ExprNode → Finset (List Char) → List Char × Finset (List Char)
  | .leaf v, m =>
    let r := get_individual_license_text licenses cfgPath m v hdr
    if pyStrip r.1.2 = [] then ([], r.2)
    else if r.1.1 ≠ [] then
      (r.1.1 ++ ['\n'] ++ List.replicate r.1.1.length '-' ++ ['\n'] ++ r.1.2, r.2)
    else (r.1.2, r.2)
  | .withE left exc, m =>
    let a := renderNode licenses cfgPath hdr left m
    let b := get_individual_license_text licenses cfgPath a.2 exc true
    (a.1 ++ s2l "\n\n--------------------\nWith the following exception(s):\n--------------------\n\nException: "
      ++ b.1.1 ++ ['\n'] ++ List.replicate (b.1.1.length + 11) '-' ++ ['\n'] ++ b.1.2, b.2)
  | .andE left right, m =>
    let a := renderNode licenses cfgPath hdr left m
    let b := renderNode licenses cfgPath hdr right a.2
    (a.1 ++ s2l "\n\n--------------------\nAnd also:\n--------------------\n\n" ++ b.1, b.2)
  | .orE left right, m =>
    let a := renderNode licenses cfgPath hdr left m
    let b := renderNode licenses cfgPath hdr right a.2
    (a.1 ++ s2l "\n\n--------------------\nOr:\n--------------------\n\n" ++ b.1, b.2)

/-- `LicenseManager.get_license_text`. -/
def get_license_text (licenses : List (List Char × List Char)) (cfgPath : List Char)
    (license_expression : List Char) (include_license_headers : Bool)
    (missing : Finset (List Char)) : List Char × Finset (List Char) :=
  if pyStrip license_expression = [] then
    (s2l "License information not provided for this component.", missing)
  else
    let intro :=
      if '(' ∈ license_expression ∨ ')' ∈ license_expression then
        s2l "This component is subject to a complex license expression (" ++
          license_expression ++ s2l "). Please review all applicable terms carefully:\n\n"
      else []
    let r := renderNode licenses cfgPath include_license_headers
      (parse license_expression) missing
    (intro ++ r.1, r.2)

/-- The set of ids a single render of the tree adds to `missing_licenses`. -/
def missOf (licenses : List (List Char × List Char)) : ExprNode → Finset (List Char)
  | .leaf v =>
    if lowerStr v = s2l "others" then ∅
    else match dictGet (lowerStr v) licenses with
      | some _ => ∅
      | none => {v}
  | .withE left exc =>
    missOf licenses left ∪
      (if lowerStr exc = s2l "others" then ∅
       else match dictGet (lowerStr exc) licenses with
         | some _ => ∅
         | none => {exc})
  | .andE left right => missOf licenses left ∪ missOf licenses right
  | .orE left right => missOf licenses left ∪ missOf licenses right

/-- A plain license identifier as used in the claims: non-empty, and free of
parentheses and whitespace (hence free of the space-delimited operators). -/
def PlainId (l : List Char) : Prop :=
  l ≠ [] ∧ ∀ c ∈ l, c ≠ '(' ∧ c ≠ ')' ∧ pyIsSpace c = false

instance (l : List Char) : Decidable (PlainId l) := by
  unfold PlainId; infer_instance

/-- Case-insensitive occurrence of `pat` in `l` (what
`expr[i:i+len].upper() == op` detects somewhere in the scan). -/
def OccursCI (pat l : List Char) : Prop :=
  ∃ w, w <:+: l ∧ w.map pyToUpper = pat

/-- Executable check for `OccursCI`. -/
def containsCI (pat l : List Char) : Bool :=
  (List.range (l.length + 1)).any
    (fun i => ((l.drop i).take pat.length).map pyToUpper == pat)

/-- An occurrence of `WITH` (case-insensitive) with at least one whitespace
character on each side — the shape the regex `\s+WITH\s+` needs. -/
def OccursWW (l : List Char) : Prop :=
  ∃ u a m b v, l = u ++ [a] ++ m ++ [b] ++ v ∧ pyIsSpace a = true ∧
    isWITHCI m = true ∧ pyIsSpace b = true

/-- Executable check for `OccursWW`. -/
def hasWsWith (l : List Char) : Bool :=
  (List.range l.length).any (fun i =>
    match l.drop i with
    | c :: rest =>
      pyIsSpace c && isWITHCI (rest.take 4) &&
        (match rest.drop 4 with
         | d :: _ => pyIsSpace d
         | [] => false)
    | [] => false)

/-! ### A fuel-indexed twin of the scanner, for kernel evaluation

`splitGo` is defined by well-founded recursion, which the kernel does not
unfold, so concrete instances of `parse` cannot be evaluated by `decide`.
`splitGoF` is the same scan with a structural fuel argument (fuel
`length + 1` always suffices, as the scan advances at least one character per
step); `parseFE`/`parseE` repeat `parseF`/`parse` on top of it.  The
equivalence theorems let every concrete evaluation go through the structural
twin. -/

def splitGoF (op : List Char) : Nat → List Char → Int → List Char → List (List Char) →
    List (List Char)
  | 0, _, _, _, res => res
  | _ + 1, [], _, acc, res => if acc = [] then res else res ++ [pyStrip acc]
  | fuel + 1, c :: rest, depth, acc, res =>
    if c = '(' then splitGoF op fuel rest (depth + 1) (acc ++ [c]) res
    else if c = ')' then splitGoF op fuel rest (depth - 1) (acc ++ [c]) res
    else if depth = 0 ∧ ((c :: rest).take op.length).map pyToUpper = op then
      splitGoF op fuel (rest.drop (op.length - 1)) 0 [] (res ++ [pyStrip acc])
    else splitGoF op fuel rest depth (acc ++ [c]) res


def split_topF (expr op : List Char) : Option (List (List Char)) :=
  let res := splitGoF op (expr.length + 1) expr 0 [] []
  if res.length > 1 then some res else none


def parseFE : Nat → List Char → ExprNode
  | 0, expr => .leaf (pyStrip expr)
  | fuel + 1, expr =>
    let e := pyStrip expr
    if e.head? = some '(' ∧ e.getLast? = some ')' ∧ parenWrapped e 0 then
      parseFE fuel (pyStrip (e.drop 1).dropLast)
    else
      match split_topF e orOp with
      | some parts =>
        match parts with
        | [] => .leaf e
        | p :: ps => (ps.map (parseFE fuel)).foldl .orE (parseFE fuel p)
      | none =>
        match split_topF e andOp with
        | some parts =>
          match parts with
          | [] => .leaf e
          | p :: ps => (ps.map (parseFE fuel)).foldl .andE (parseFE fuel p)
        | none =>
          match withFind [] e with
          | some g => .withE (parseFE fuel (pyStrip g.1)) (pyStrip g.2)
          | none => .leaf e


/-- `parse` over the structural twin: used to evaluate concrete inputs. -/
def parseE (expr : List Char) : ExprNode := parseFE (expr.length + 1) expr


/-! ### Character-level facts -/

theorem toNat_ofNat_small (n : Nat) (h : n < 55296) : (Char.ofNat n).toNat = n := by
  have hv : n.isValidChar := Or.inl h
  rw [Char.ofNat, dif_pos hv]
  simp [Char.ofNatAux, Char.toNat, UInt32.ofNat', UInt32.toNat]

theorem pyToUpper_eq_space {c : Char} (h : pyToUpper c = ' ') : c = ' ' := by
  unfold pyToUpper at h
  split at h
  · exfalso
    have := congrArg Char.toNat h
    rw [toNat_ofNat_small _ (by omega)] at this
    have h32 : (' ' : Char).toNat = 32 := rfl
    omega
  · exact h

theorem pyToUpper_ne_space {c : Char} (h : pyIsSpace c = false) : pyToUpper c ≠ ' ' := by
  intro he
  rw [pyToUpper_eq_space he] at h
  simp [pyIsSpace] at h

/-! ### Facts about `pyStrip` -/

theorem dropWhile_head_nonspace : ∀ {l : List Char},
    (∀ c, l.head? = some c → pyIsSpace c = false) → l.dropWhile pyIsSpace = l
  | [], _ => rfl
  | c :: t, h => by
    rw [List.dropWhile_cons, if_neg (by simp [h c rfl])]

theorem pyStrip_eq_self {l : List Char}
    (h1 : ∀ c, l.head? = some c → pyIsSpace c = false)
    (h2 : ∀ c, l.getLast? = some c → pyIsSpace c = false) : pyStrip l = l := by
  unfold pyStrip dropTrail
  rw [dropWhile_head_nonspace h1, dropWhile_head_nonspace (l := l.reverse)
    (by intro c hc; exact h2 c (by rwa [List.head?_reverse] at hc)), List.reverse_reverse]

theorem pyStrip_all_nonspace {l : List Char}
    (h : ∀ c ∈ l, pyIsSpace c = false) : pyStrip l = l :=
  pyStrip_eq_self
    (fun c hc => h c (List.mem_of_mem_head? (by rw [hc]; rfl)))
    (fun c hc => h c (List.mem_of_mem_getLast? (by rw [hc]; rfl)))

theorem pyStrip_eq_nil {l : List Char}
    (h : ∀ c ∈ l, pyIsSpace c = true) : pyStrip l = [] := by
  unfold pyStrip dropTrail
  rw [List.dropWhile_eq_nil_iff.2 (fun a ha => by
    have ha2 : a ∈ l := (List.dropWhile_sublist (p := pyIsSpace)).subset (List.mem_reverse.1 ha)
    simp [h a ha2])]
  rfl

theorem pyStrip_infix (l : List Char) : pyStrip l <:+: l := by
  have h1 : pyStrip l <+: l.dropWhile pyIsSpace := by
    unfold pyStrip dropTrail
    have : (l.dropWhile pyIsSpace).reverse.dropWhile pyIsSpace <:+ (l.dropWhile pyIsSpace).reverse :=
      List.dropWhile_suffix _
    have h2 := List.reverse_prefix.2 (by simpa using this)
    simpa using h2
  exact h1.isInfix.trans (List.dropWhile_suffix pyIsSpace).isInfix

/-! ### Facts about the `split_top` scan -/

theorem splitGo_nil (op : List Char) (d : Int) (acc res) :
    splitGo op [] d acc res = if acc = [] then res else res ++ [pyStrip acc] := by
  rw [splitGo]

theorem splitGo_cons (op : List Char) (c : Char) (l : List Char) (d : Int) (acc res) :
    splitGo op (c :: l) d acc res =
      if c = '(' then splitGo op l (d + 1) (acc ++ [c]) res
      else if c = ')' then splitGo op l (d - 1) (acc ++ [c]) res
      else if d = 0 ∧ ((c :: l).take op.length).map pyToUpper = op then
        splitGo op (l.drop (op.length - 1)) 0 [] (res ++ [pyStrip acc])
      else splitGo op l d (acc ++ [c]) res := by
  rw [splitGo]

theorem splitGo_consume {op : List Char} {c : Char} {l : List Char} {d : Int} (acc res)
    (h1 : c ≠ '(') (h2 : c ≠ ')')
    (h3 : ¬(d = 0 ∧ ((c :: l).take op.length).map pyToUpper = op)) :
    splitGo op (c :: l) d acc res = splitGo op l d (acc ++ [c]) res := by
  rw [splitGo_cons, if_neg h1, if_neg h2, if_neg h3]

theorem splitGo_consume_plain {op' : List Char} {c : Char} {l : List Char} {d : Int} (acc res)
    (h1 : c ≠ '(') (h2 : c ≠ ')') (h3 : pyToUpper c ≠ ' ') :
    splitGo (' ' :: op') (c :: l) d acc res = splitGo (' ' :: op') l d (acc ++ [c]) res :=
  splitGo_consume acc res h1 h2 (by
    rintro ⟨-, hm⟩
    simp only [List.length_cons, List.take_succ_cons, List.map_cons, List.cons.injEq] at hm
    exact h3 hm.1)

theorem splitGo_plain_seg {op' : List Char} :
    ∀ (P : List Char) {l : List Char} {d : Int} (acc res),
      (∀ c ∈ P, c ≠ '(' ∧ c ≠ ')' ∧ pyIsSpace c = false) →
      splitGo (' ' :: op') (P ++ l) d acc res = splitGo (' ' :: op') l d (acc ++ P) res
  | [], l, d, acc, res, _ => by simp
  | c :: P, l, d, acc, res, hP => by
    obtain ⟨h1, h2, h3⟩ := hP c (List.mem_cons_self c P)
    rw [List.cons_append, splitGo_consume_plain acc res h1 h2 (pyToUpper_ne_space h3),
      splitGo_plain_seg P (acc ++ [c]) res (fun x hx => hP x (List.mem_cons_of_mem _ hx)),
      List.append_assoc]
    rfl

theorem splitGo_nonzero_seg {op : List Char} :
    ∀ (P : List Char) {l : List Char} {d : Int} (acc res), d ≠ 0 →
      (∀ c ∈ P, c ≠ '(' ∧ c ≠ ')') →
      splitGo op (P ++ l) d acc res = splitGo op l d (acc ++ P) res
  | [], l, d, acc, res, _, _ => by simp
  | c :: P, l, d, acc, res, hd, hP => by
    obtain ⟨h1, h2⟩ := hP c (List.mem_cons_self c P)
    rw [List.cons_append, splitGo_consume acc res h1 h2 (fun hc => hd hc.1),
      splitGo_nonzero_seg P (acc ++ [c]) res hd (fun x hx => hP x (List.mem_cons_of_mem _ hx)),
      List.append_assoc]
    rfl

theorem splitGo_op_match {op' l : List Char} (acc res)
    (hup : (' ' :: op').map pyToUpper = ' ' :: op') :
    splitGo (' ' :: op') ((' ' :: op') ++ l) 0 acc res
      = splitGo (' ' :: op') l 0 [] (res ++ [pyStrip acc]) := by
  have hw : (((' ' :: op') ++ l).take (' ' :: op').length).map pyToUpper = ' ' :: op' := by
    rw [List.take_left]; exact hup
  rw [show (' ' :: op') ++ l = ' ' :: (op' ++ l) from rfl] at hw ⊢
  rw [splitGo_cons, if_neg (by decide), if_neg (by decide), if_pos ⟨rfl, hw⟩]
  congr 1
  simp [List.drop_left]

theorem splitGo_no_match {op : List Char} :
    ∀ (l : List Char) (d : Int) (acc res),
      (∀ i, ((l.drop i).take op.length).map pyToUpper ≠ op) →
      splitGo op l d acc res = if acc ++ l = [] then res else res ++ [pyStrip (acc ++ l)]
  | [], d, acc, res, _ => by rw [splitGo_nil]; simp
  | c :: rest, d, acc, res, h => by
    have hrest : ∀ i, ((rest.drop i).take op.length).map pyToUpper ≠ op := fun i => by
      have := h (i + 1); simpa using this
    have h0 := h 0
    simp only [List.drop_zero] at h0
    by_cases h1 : c = '('
    · subst h1
      rw [splitGo_cons, if_pos rfl, splitGo_no_match rest _ _ _ hrest]
      simp [List.append_assoc]
    · by_cases h2 : c = ')'
      · subst h2
        rw [splitGo_cons, if_neg (by decide), if_pos rfl, splitGo_no_match rest _ _ _ hrest]
        simp [List.append_assoc]
      · rw [splitGo_consume _ _ h1 h2 (fun hc => h0 hc.2), splitGo_no_match rest _ _ _ hrest]
        simp [List.append_assoc]

/-! ### Occurrence lemmas -/

theorem occursCI_of_window {op l : List Char} {i : Nat}
    (h : ((l.drop i).take op.length).map pyToUpper = op) : OccursCI op l := by
  refine ⟨(l.drop i).take op.length, ⟨l.take i, (l.drop i).drop op.length, ?_⟩, h⟩
  rw [List.append_assoc, List.take_append_drop, List.take_append_drop]

theorem containsCI_true_iff {op l : List Char} : containsCI op l = true ↔ OccursCI op l := by
  constructor
  · intro h
    obtain ⟨i, _, hi⟩ := List.any_eq_true.1 h
    exact occursCI_of_window (by simpa using hi)
  · rintro ⟨w, ⟨u, v, hl⟩, hmap⟩
    have hwlen : w.length = op.length := by
      have := congrArg List.length hmap; simpa using this
    apply List.any_eq_true.2
    refine ⟨u.length, List.mem_range.2 ?_, ?_⟩
    · subst hl; simp; omega
    · subst hl
      rw [List.append_assoc, List.drop_left, List.take_left' hwlen]
      simpa using hmap

theorem not_occursCI_of_containsCI_false {op l : List Char}
    (h : containsCI op l = false) : ¬OccursCI op l := fun ho => by
  rw [containsCI_true_iff.2 ho] at h
  exact absurd h (by simp)

theorem occursCI_mono {op e l : List Char} (hel : e <:+: l) (h : OccursCI op e) :
    OccursCI op l := by
  obtain ⟨w, hw, hm⟩ := h
  exact ⟨w, hw.trans hel, hm⟩

theorem split_top_eq_none_of_not_occurs {op l : List Char} (h : ¬OccursCI op l) :
    split_top l op = none := by
  have hw : ∀ i, ((l.drop i).take op.length).map pyToUpper ≠ op :=
    fun i hi => h (occursCI_of_window hi)
  unfold split_top
  rw [splitGo_no_match l 0 [] [] hw]
  by_cases hl : l = [] <;> simp [hl]

/-! ### Facts about the WITH regex embedding -/

theorem tryWith_nil : tryWith [] = none := rfl

theorem tryWith_none_of_head {c : Char} {l : List Char} (h : pyIsSpace c = false) :
    tryWith (c :: l) = none := by
  have h1 : (c :: l).takeWhile pyIsSpace = [] := by
    rw [List.takeWhile_cons, if_neg (by simp [h])]
  unfold tryWith
  rw [h1]
  simp

theorem withFind_nil (g1 : List Char) : withFind g1 [] = none := by
  simp [withFind, tryWith_nil]

theorem withFind_cons {c : Char} {l : List Char} (g1 : List Char)
    (hsp : pyIsSpace c = false) (hnl : c ≠ '\n') :
    withFind g1 (c :: l) = withFind (g1 ++ [c]) l := by
  simp only [withFind, tryWith_none_of_head hsp]
  rw [if_neg hnl]

theorem withFind_plain_seg :
    ∀ (P : List Char) {l : List Char} (g1 : List Char),
      (∀ c ∈ P, pyIsSpace c = false ∧ c ≠ '\n') →
      withFind g1 (P ++ l) = withFind (g1 ++ P) l
  | [], l, g1, _ => by simp
  | c :: P, l, g1, hP => by
    obtain ⟨h1, h2⟩ := hP c (List.mem_cons_self c P)
    rw [List.cons_append, withFind_cons g1 h1 h2,
      withFind_plain_seg P (g1 ++ [c]) (fun x hx => hP x (List.mem_cons_of_mem _ hx)),
      List.append_assoc]
    rfl

theorem withFind_hit {l g2 : List Char} (g1 : List Char) (h : tryWith l = some g2) :
    withFind g1 l = some (g1, g2) := by
  cases l with
  | nil => rw [tryWith_nil] at h; exact absurd h (by simp)
  | cons c rest => simp only [withFind, h]

theorem tryWith_sep {c : Char} {t' : List Char} (hc : pyIsSpace c = false)
    (hnl : ∀ x ∈ c :: t', x ≠ '\n') :
    tryWith ([' ', 'W', 'I', 'T', 'H', ' '] ++ (c :: t')) = some (c :: t') := by
  have e1 : ([' ', 'W', 'I', 'T', 'H', ' '] ++ (c :: t')).takeWhile pyIsSpace = [' '] := by
    simp [List.takeWhile_cons, pyIsSpace]
  have e2 : ([' ', 'W', 'I', 'T', 'H', ' '] ++ (c :: t')).dropWhile pyIsSpace
      = 'W' :: 'I' :: 'T' :: 'H' :: ' ' :: c :: t' := by
    simp [List.dropWhile_cons, pyIsSpace]
  have e3 : isWITHCI (('W' :: 'I' :: 'T' :: 'H' :: ' ' :: c :: t').take 4) = true := by
    rw [show ('W' :: 'I' :: 'T' :: 'H' :: ' ' :: c :: t').take 4 = ['W', 'I', 'T', 'H']
      from rfl]
    decide
  have e4 : (' ' :: c :: t').takeWhile pyIsSpace = [' '] := by
    rw [List.takeWhile_cons, if_pos (by decide), List.takeWhile_cons, if_neg (by simp [hc])]
  have e5 : (' ' :: c :: t').dropWhile pyIsSpace = c :: t' := by
    rw [List.dropWhile_cons, if_pos (by decide), List.dropWhile_cons, if_neg (by simp [hc])]
  unfold tryWith
  rw [e1, e2]
  rw [if_neg (by simp), if_pos e3]
  have e6 : ('W' :: 'I' :: 'T' :: 'H' :: ' ' :: c :: t').drop 4 = ' ' :: c :: t' := rfl
  rw [e6]
  simp only [e4, e5]
  have e7 : ((c :: t').all fun x => decide (x ≠ '\n')) = true := by
    simp only [List.all_eq_true, decide_eq_true_eq]; exact hnl
  rw [if_neg (by simp), if_pos (by simp), if_pos e7]

theorem withFind_none_of_all :
    ∀ (l : List Char) (g1 : List Char),
      (∀ s, s <:+ l → tryWith s = none) → withFind g1 l = none
  | [], g1, _ => withFind_nil g1
  | c :: rest, g1, h => by
    simp only [withFind, h (c :: rest) (List.suffix_refl _)]
    by_cases hc : c = '\n'
    · rw [if_pos hc]
    · rw [if_neg hc]
      exact withFind_none_of_all rest (g1 ++ [c])
        (fun s hs => h s (hs.trans (List.suffix_cons c rest)))

theorem tryWith_some_facts {s g2 : List Char} (h : tryWith s = some g2) :
    s.takeWhile pyIsSpace ≠ [] ∧
    isWITHCI ((s.dropWhile pyIsSpace).take 4) = true ∧
    ((s.dropWhile pyIsSpace).drop 4).takeWhile pyIsSpace ≠ [] := by
  unfold tryWith at h
  by_cases h1 : s.takeWhile pyIsSpace = []
  · rw [if_pos h1] at h; exact absurd h (by simp)
  · rw [if_neg h1] at h
    by_cases h2 : isWITHCI ((s.dropWhile pyIsSpace).take 4) = true
    · rw [if_pos h2] at h
      by_cases h3 : ((s.dropWhile pyIsSpace).drop 4).takeWhile pyIsSpace = []
      · rw [if_pos h3] at h; exact absurd h (by simp)
      · exact ⟨h1, h2, h3⟩
    · rw [if_neg h2] at h; exact absurd h (by simp)

theorem isWITHCI_length {m : List Char} (h : isWITHCI m = true) : m.length = 4 := by
  rcases m with _ | ⟨c1, _ | ⟨c2, _ | ⟨c3, _ | ⟨c4, _ | ⟨c5, m⟩⟩⟩⟩⟩ <;>
    first
      | rfl
      | exact absurd h (by simp [isWITHCI])

theorem occursWW_of_tryWith {s g2 : List Char} (h : tryWith s = some g2) : OccursWW s := by
  obtain ⟨h1, h2, h3⟩ := tryWith_some_facts h
  have hs : s.takeWhile pyIsSpace ++ s.dropWhile pyIsSpace = s :=
    List.takeWhile_append_dropWhile pyIsSpace s
  have hrestd : (s.dropWhile pyIsSpace).take 4 ++ (s.dropWhile pyIsSpace).drop 4
      = s.dropWhile pyIsSpace := List.take_append_drop _ _
  have hr2d : ((s.dropWhile pyIsSpace).drop 4).takeWhile pyIsSpace ++
      ((s.dropWhile pyIsSpace).drop 4).dropWhile pyIsSpace = (s.dropWhile pyIsSpace).drop 4 :=
    List.takeWhile_append_dropWhile pyIsSpace _
  have hru : (s.takeWhile pyIsSpace).dropLast ++ [(s.takeWhile pyIsSpace).getLast h1]
      = s.takeWhile pyIsSpace := List.dropLast_append_getLast h1
  have hwa : pyIsSpace ((s.takeWhile pyIsSpace).getLast h1) = true := by
    have : (s.takeWhile pyIsSpace).getLast h1 ∈ s.takeWhile pyIsSpace := List.getLast_mem h1
    exact List.mem_takeWhile_imp this
  obtain ⟨b, v0, hbv⟩ : ∃ b v0, ((s.dropWhile pyIsSpace).drop 4).takeWhile pyIsSpace = b :: v0 := by
    cases hc : ((s.dropWhile pyIsSpace).drop 4).takeWhile pyIsSpace with
    | nil => exact absurd hc h3
    | cons b v0 => exact ⟨b, v0, rfl⟩
  have hwb : pyIsSpace b = true := by
    have : b ∈ ((s.dropWhile pyIsSpace).drop 4).takeWhile pyIsSpace := by
      rw [hbv]; exact List.mem_cons_self _ _
    exact List.mem_takeWhile_imp this
  refine ⟨(s.takeWhile pyIsSpace).dropLast, (s.takeWhile pyIsSpace).getLast h1,
    (s.dropWhile pyIsSpace).take 4, b,
    v0 ++ ((s.dropWhile pyIsSpace).drop 4).dropWhile pyIsSpace, ?_, hwa, h2, hwb⟩
  conv_lhs => rw [← hs, ← hru, ← hrestd, ← hr2d, hbv]
  simp [List.append_assoc]

theorem occursWW_mono {e l : List Char} (hel : e <:+: l) (h : OccursWW e) : OccursWW l := by
  obtain ⟨u, a, m, b, v, he, ha, hm, hb⟩ := h
  obtain ⟨p, q, hl⟩ := hel
  refine ⟨p ++ u, a, m, b, v ++ q, ?_, ha, hm, hb⟩
  rw [← hl, he]
  simp [List.append_assoc]

theorem hasWsWith_of_occursWW {l : List Char} (h : OccursWW l) : hasWsWith l = true := by
  obtain ⟨u, a, m, b, v, he, ha, hm, hb⟩ := h
  have hmlen : m.length = 4 := isWITHCI_length hm
  apply List.any_eq_true.2
  refine ⟨u.length, List.mem_range.2 (by subst he; simp only [List.length_append, List.length_cons]; omega), ?_⟩
  subst he
  have hdrop : (u ++ [a] ++ m ++ [b] ++ v).drop u.length = a :: (m ++ b :: v) := by
    have : u ++ [a] ++ m ++ [b] ++ v = u ++ (a :: (m ++ b :: v)) := by
      simp [List.append_assoc]
    rw [this, List.drop_left]
  rw [hdrop]
  have ht : (m ++ b :: v).take 4 = m := List.take_left' hmlen
  have hd : (m ++ b :: v).drop 4 = b :: v := List.drop_left' hmlen
  simp only [ht, hd, ha, hb, hm]
  simp

theorem withFind_none_of_no_WW {l : List Char} (h : hasWsWith l = false) (g1 : List Char) :
    withFind g1 l = none :=
  withFind_none_of_all l g1 (fun s hs => by
    cases htw : tryWith s with
    | none => rfl
    | some g2 =>
      exfalso
      have h2 := hasWsWith_of_occursWW (occursWW_mono hs.isInfix (occursWW_of_tryWith htw))
      rw [h2] at h
      simp at h)

/-! ### Facts about `parenWrapped` -/

theorem parenWrapped_nonparen_seg :
    ∀ (P : List Char) {l : List Char} {d : Int}, d ≠ 0 →
      (∀ c ∈ P, c ≠ '(' ∧ c ≠ ')') →
      parenWrapped (P ++ l) d = parenWrapped l d
  | [], l, d, _, _ => by simp
  | c :: P, l, d, hd, hP => by
    obtain ⟨h1, h2⟩ := hP c (List.mem_cons_self c P)
    show parenWrapped (c :: (P ++ l)) d = parenWrapped l d
    rw [parenWrapped]
    simp only [if_neg h1, if_neg h2, add_zero, sub_zero]
    rw [if_neg (fun h => hd h.1)]
    exact parenWrapped_nonparen_seg P hd (fun x hx => hP x (List.mem_cons_of_mem _ hx))

theorem parenWrapped_wrap (mid : List Char)
    (hmid : ∀ c ∈ mid, c ≠ '(' ∧ c ≠ ')') :
    parenWrapped ('(' :: (mid ++ [')'])) 0 = true := by
  rw [parenWrapped]
  rw [if_pos rfl, if_neg (show ('(' : Char) ≠ ')' by decide)]
  norm_num
  rw [parenWrapped_nonparen_seg mid (by norm_num) hmid]
  decide

/-! ### Plain identifiers -/

theorem PlainId.nonspace {A : List Char} (hA : PlainId A) :
    ∀ c ∈ A, pyIsSpace c = false := fun c hc => (hA.2 c hc).2.2

theorem PlainId.noparen {A : List Char} (hA : PlainId A) :
    ∀ c ∈ A, c ≠ '(' ∧ c ≠ ')' := fun c hc => ⟨(hA.2 c hc).1, (hA.2 c hc).2.1⟩

theorem PlainId.strip {A : List Char} (hA : PlainId A) : pyStrip A = A :=
  pyStrip_all_nonspace hA.nonspace

theorem PlainId.no_nl {A : List Char} (hA : PlainId A) :
    ∀ c ∈ A, pyIsSpace c = false ∧ c ≠ '\n' :=
  fun c hc => ⟨(hA.2 c hc).2.2, fun he => by
    have h2 := (hA.2 c hc).2.2
    rw [he] at h2
    simp [pyIsSpace] at h2⟩

/-! ### Windows beginning at a space followed by plain text never match -/

theorem take4_cons4 (a b c d : Char) (l : List Char) :
    (a :: b :: c :: d :: l).take 4 = [a, b, c, d] := rfl

theorem take5_cons5 (a b c d e : Char) (l : List Char) :
    (a :: b :: c :: d :: e :: l).take 5 = [a, b, c, d, e] := rfl

theorem no_or_match_space_end {l : List Char} (h : ∀ c ∈ l, pyIsSpace c = false) :
    ¬((' ' :: l).take orOp.length).map pyToUpper = orOp := by
  intro hm
  have hlen : ((' ' :: l).take orOp.length).length = 4 := by
    rw [← List.length_map _ pyToUpper, hm]; rfl
  rw [List.length_take, List.length_cons] at hlen
  have hl3 : 3 ≤ l.length := by
    have : orOp.length = 4 := rfl
    omega
  rcases l with _ | ⟨c0, l⟩
  · simp at hl3
  rcases l with _ | ⟨c1, l⟩
  · simp at hl3
  rcases l with _ | ⟨c2, l⟩
  · simp at hl3
  rw [show orOp.length = 4 from rfl, take4_cons4] at hm
  simp only [List.map_cons, List.map_nil, orOp, List.cons.injEq, and_true] at hm
  obtain ⟨-, -, -, h4⟩ := hm
  exact pyToUpper_ne_space (h c2 (by simp)) h4

theorem no_and_match_space_end {l : List Char} (h : ∀ c ∈ l, pyIsSpace c = false) :
    ¬((' ' :: l).take andOp.length).map pyToUpper = andOp := by
  intro hm
  have hlen : ((' ' :: l).take andOp.length).length = 5 := by
    rw [← List.length_map _ pyToUpper, hm]; rfl
  rw [List.length_take, List.length_cons] at hlen
  have hl4 : 4 ≤ l.length := by
    have : andOp.length = 5 := rfl
    omega
  rcases l with _ | ⟨c0, l⟩
  · simp at hl4
  rcases l with _ | ⟨c1, l⟩
  · simp at hl4
  rcases l with _ | ⟨c2, l⟩
  · simp at hl4
  rcases l with _ | ⟨c3, l⟩
  · simp at hl4
  rw [show andOp.length = 5 from rfl, take5_cons5] at hm
  simp only [List.map_cons, List.map_nil, andOp, List.cons.injEq, and_true] at hm
  obtain ⟨-, -, -, -, h5⟩ := hm
  exact pyToUpper_ne_space (h c3 (by simp)) h5

/-! ### Composite scans used by the claims -/

theorem orOp_eq : orOp = ' ' :: ['O', 'R', ' '] := rfl

theorem andOp_eq : andOp = ' ' :: ['A', 'N', 'D', ' '] := rfl

theorem orOp_up : (' ' :: ['O', 'R', ' ']).map pyToUpper = ' ' :: ['O', 'R', ' '] := by decide

theorem andOp_up : (' ' :: ['A', 'N', 'D', ' ']).map pyToUpper = ' ' :: ['A', 'N', 'D', ' '] := by
  decide

theorem split_or_pair {A B : List Char} (hA : PlainId A) (hB : PlainId B) :
    split_top (A ++ orOp ++ B) orOp = some [A, B] := by
  have hres : splitGo orOp (A ++ orOp ++ B) 0 [] [] = [A, B] := by
    rw [List.append_assoc, orOp_eq]
    rw [splitGo_plain_seg A [] [] hA.2, List.nil_append]
    rw [splitGo_op_match A [] orOp_up]
    have hB2 := @splitGo_plain_seg ['O', 'R', ' '] B [] 0 [] ([] ++ [pyStrip A]) hB.2
    rw [List.append_nil] at hB2
    rw [hB2, splitGo_nil, if_neg (by simp [hB.1])]
    simp [hA.strip, hB.strip]
  unfold split_top
  rw [hres]
  simp


theorem splitGo_or_through_and {C : List Char} (hC : PlainId C) (acc res) :
    splitGo (' ' :: ['O', 'R', ' ']) (andOp ++ C) 0 acc res
      = splitGo (' ' :: ['O', 'R', ' ']) C 0 (acc ++ andOp) res := by
  rw [show andOp ++ C = ' ' :: 'A' :: 'N' :: 'D' :: ' ' :: C from rfl]
  rw [splitGo_consume acc res (by decide) (by decide) (by
    rintro ⟨-, hm⟩
    rw [show (' ' :: ['O', 'R', ' '] : List Char).length = 4 from rfl, take4_cons4] at hm
    exact absurd hm (by decide))]
  rw [splitGo_consume_plain _ _ (by decide) (by decide) (by decide)]
  rw [splitGo_consume_plain _ _ (by decide) (by decide) (by decide)]
  rw [splitGo_consume_plain _ _ (by decide) (by decide) (by decide)]
  rw [splitGo_consume _ _ (by decide) (by decide) (by
    rintro ⟨-, hm⟩
    exact no_or_match_space_end hC.nonspace hm)]
  rw [show (andOp : List Char) = [' ', 'A', 'N', 'D', ' '] from rfl]
  simp [List.append_assoc]

theorem splitGo_or_through_with {B : List Char} (hB : PlainId B) (acc res) :
    splitGo (' ' :: ['O', 'R', ' ']) (withSep ++ B) 0 acc res
      = splitGo (' ' :: ['O', 'R', ' ']) B 0 (acc ++ withSep) res := by
  rw [show withSep ++ B = ' ' :: 'W' :: 'I' :: 'T' :: 'H' :: ' ' :: B from rfl]
  rw [splitGo_consume acc res (by decide) (by decide) (by
    rintro ⟨-, hm⟩
    rw [show (' ' :: ['O', 'R', ' '] : List Char).length = 4 from rfl, take4_cons4] at hm
    exact absurd hm (by decide))]
  rw [splitGo_consume_plain _ _ (by decide) (by decide) (by decide)]
  rw [splitGo_consume_plain _ _ (by decide) (by decide) (by decide)]
  rw [splitGo_consume_plain _ _ (by decide) (by decide) (by decide)]
  rw [splitGo_consume_plain _ _ (by decide) (by decide) (by decide)]
  rw [splitGo_consume _ _ (by decide) (by decide) (by
    rintro ⟨-, hm⟩
    exact no_or_match_space_end hB.nonspace hm)]
  rw [show (withSep : List Char) = [' ', 'W', 'I', 'T', 'H', ' '] from rfl]
  simp [List.append_assoc]

theorem splitGo_and_through_with {B : List Char} (hB : PlainId B) (acc res) :
    splitGo (' ' :: ['A', 'N', 'D', ' ']) (withSep ++ B) 0 acc res
      = splitGo (' ' :: ['A', 'N', 'D', ' ']) B 0 (acc ++ withSep) res := by
  rw [show withSep ++ B = ' ' :: 'W' :: 'I' :: 'T' :: 'H' :: ' ' :: B from rfl]
  rw [splitGo_consume acc res (by decide) (by decide) (by
    rintro ⟨-, hm⟩
    rw [show (' ' :: ['A', 'N', 'D', ' '] : List Char).length = 5 from rfl, take5_cons5] at hm
    exact absurd hm (by decide))]
  rw [splitGo_consume_plain _ _ (by decide) (by decide) (by decide)]
  rw [splitGo_consume_plain _ _ (by decide) (by decide) (by decide)]
  rw [splitGo_consume_plain _ _ (by decide) (by decide) (by decide)]
  rw [splitGo_consume_plain _ _ (by decide) (by decide) (by decide)]
  rw [splitGo_consume _ _ (by decide) (by decide) (by
    rintro ⟨-, hm⟩
    exact no_and_match_space_end hB.nonspace hm)]
  rw [show (withSep : List Char) = [' ', 'W', 'I', 'T', 'H', ' '] from rfl]
  simp [List.append_assoc]

theorem pyStrip_sandwich {A C : List Char} (M : List Char) (hA : PlainId A) (hC : PlainId C) :
    pyStrip (A ++ M ++ C) = A ++ M ++ C := by
  apply pyStrip_eq_self
  · intro c hc
    rcases A with _ | ⟨a, A⟩
    · exact absurd rfl hA.1
    · simp at hc
      rw [← hc]
      exact hA.nonspace a (by simp)
  · intro c hc
    rw [List.getLast?_append, List.getLast?_eq_getLast C hC.1] at hc
    simp at hc
    rw [← hc]
    exact hC.nonspace _ (List.getLast_mem hC.1)

theorem split_and_pair {A B : List Char} (hA : PlainId A) (hB : PlainId B) :
    split_top (A ++ andOp ++ B) andOp = some [A, B] := by
  have hres : splitGo andOp (A ++ andOp ++ B) 0 [] [] = [A, B] := by
    rw [List.append_assoc, andOp_eq]
    rw [splitGo_plain_seg A [] [] hA.2, List.nil_append]
    rw [splitGo_op_match A [] andOp_up]
    have hB2 := @splitGo_plain_seg ['A', 'N', 'D', ' '] B [] 0 [] ([] ++ [pyStrip A]) hB.2
    rw [List.append_nil] at hB2
    rw [hB2, splitGo_nil, if_neg (by simp [hB.1])]
    simp [hA.strip, hB.strip]
  unfold split_top
  rw [hres]
  simp

theorem split_or_none_over_and {A B : List Char} (hA : PlainId A) (hB : PlainId B) :
    split_top (A ++ andOp ++ B) orOp = none := by
  have hres : splitGo orOp (A ++ andOp ++ B) 0 [] []
      = [pyStrip (A ++ andOp ++ B)] := by
    rw [List.append_assoc, orOp_eq]
    rw [splitGo_plain_seg A [] [] hA.2, List.nil_append]
    rw [splitGo_or_through_and hB A []]
    have hB2 := @splitGo_plain_seg ['O', 'R', ' '] B [] 0 (A ++ andOp) [] hB.2
    rw [List.append_nil] at hB2
    rw [hB2, splitGo_nil, if_neg (by simp [hA.1])]
    simp [List.append_assoc]
  unfold split_top
  rw [hres]
  simp

theorem split_or_none_over_with {A B : List Char} (hA : PlainId A) (hB : PlainId B) :
    split_top (A ++ withSep ++ B) orOp = none := by
  have hres : splitGo orOp (A ++ withSep ++ B) 0 [] []
      = [pyStrip (A ++ withSep ++ B)] := by
    rw [List.append_assoc, orOp_eq]
    rw [splitGo_plain_seg A [] [] hA.2, List.nil_append]
    rw [splitGo_or_through_with hB A []]
    have hB2 := @splitGo_plain_seg ['O', 'R', ' '] B [] 0 (A ++ withSep) [] hB.2
    rw [List.append_nil] at hB2
    rw [hB2, splitGo_nil, if_neg (by simp [hA.1])]
    simp [List.append_assoc]
  unfold split_top
  rw [hres]
  simp

theorem split_and_none_over_with {A B : List Char} (hA : PlainId A) (hB : PlainId B) :
    split_top (A ++ withSep ++ B) andOp = none := by
  have hres : splitGo andOp (A ++ withSep ++ B) 0 [] []
      = [pyStrip (A ++ withSep ++ B)] := by
    rw [List.append_assoc, andOp_eq]
    rw [splitGo_plain_seg A [] [] hA.2, List.nil_append]
    rw [splitGo_and_through_with hB A []]
    have hB2 := @splitGo_plain_seg ['A', 'N', 'D', ' '] B [] 0 (A ++ withSep) [] hB.2
    rw [List.append_nil] at hB2
    rw [hB2, splitGo_nil, if_neg (by simp [hA.1])]
    simp [List.append_assoc]
  unfold split_top
  rw [hres]
  simp

theorem splitGo_open (op : List Char) {l : List Char} (d : Int) (acc res) :
    splitGo op ('(' :: l) d acc res = splitGo op l (d + 1) (acc ++ ['(']) res := by
  rw [splitGo_cons, if_pos rfl]

theorem splitGo_close (op : List Char) {l : List Char} (d : Int) (acc res) :
    splitGo op (')' :: l) d acc res = splitGo op l (d - 1) (acc ++ [')']) res := by
  rw [splitGo_cons, if_neg (by decide), if_pos rfl]

theorem split_or_C1 {A B C : List Char} (hA : PlainId A) (hB : PlainId B) (hC : PlainId C) :
    split_top (A ++ orOp ++ (B ++ andOp ++ C)) orOp = some [A, B ++ andOp ++ C] := by
  have hres : splitGo orOp (A ++ orOp ++ (B ++ andOp ++ C)) 0 [] []
      = [A, B ++ andOp ++ C] := by
    rw [List.append_assoc A orOp, orOp_eq]
    rw [splitGo_plain_seg A [] [] hA.2, List.nil_append]
    rw [splitGo_op_match A [] orOp_up]
    rw [List.append_assoc B andOp]
    rw [splitGo_plain_seg B [] ([] ++ [pyStrip A]) hB.2, List.nil_append]
    rw [splitGo_or_through_and hC B ([] ++ [pyStrip A])]
    have hC2 := @splitGo_plain_seg ['O', 'R', ' '] C [] 0 (B ++ andOp) ([] ++ [pyStrip A]) hC.2
    rw [List.append_nil] at hC2
    rw [hC2, splitGo_nil, if_neg (by simp [hB.1])]
    rw [hA.strip]
    rw [pyStrip_sandwich andOp hB hC]
    simp [List.append_assoc]
  unfold split_top
  rw [hres]
  simp

theorem split_and_triple {A B C : List Char} (hA : PlainId A) (hB : PlainId B)
    (hC : PlainId C) :
    split_top (A ++ andOp ++ B ++ andOp ++ C) andOp = some [A, B, C] := by
  have hres : splitGo andOp (A ++ andOp ++ B ++ andOp ++ C) 0 [] [] = [A, B, C] := by
    rw [List.append_assoc (A ++ andOp ++ B) andOp, List.append_assoc (A ++ andOp) B,
      List.append_assoc A andOp, andOp_eq]
    rw [splitGo_plain_seg A [] [] hA.2, List.nil_append]
    rw [splitGo_op_match A [] andOp_up]
    rw [splitGo_plain_seg B [] ([] ++ [pyStrip A]) hB.2, List.nil_append]
    rw [splitGo_op_match B ([] ++ [pyStrip A]) andOp_up]
    have hC2 := @splitGo_plain_seg ['A', 'N', 'D', ' '] C [] 0 []
      ([] ++ [pyStrip A] ++ [pyStrip B]) hC.2
    rw [List.append_nil] at hC2
    rw [hC2, splitGo_nil, if_neg (by simp [hC.1])]
    simp [hA.strip, hB.strip, hC.strip]
  unfold split_top
  rw [hres]
  simp

theorem split_or_triple {A B C : List Char} (hA : PlainId A) (hB : PlainId B)
    (hC : PlainId C) :
    split_top (A ++ orOp ++ B ++ orOp ++ C) orOp = some [A, B, C] := by
  have hres : splitGo orOp (A ++ orOp ++ B ++ orOp ++ C) 0 [] [] = [A, B, C] := by
    rw [List.append_assoc (A ++ orOp ++ B) orOp, List.append_assoc (A ++ orOp) B,
      List.append_assoc A orOp, orOp_eq]
    rw [splitGo_plain_seg A [] [] hA.2, List.nil_append]
    rw [splitGo_op_match A [] orOp_up]
    rw [splitGo_plain_seg B [] ([] ++ [pyStrip A]) hB.2, List.nil_append]
    rw [splitGo_op_match B ([] ++ [pyStrip A]) orOp_up]
    have hC2 := @splitGo_plain_seg ['O', 'R', ' '] C [] 0 []
      ([] ++ [pyStrip A] ++ [pyStrip B]) hC.2
    rw [List.append_nil] at hC2
    rw [hC2, splitGo_nil, if_neg (by simp [hC.1])]
    simp [hA.strip, hB.strip, hC.strip]
  unfold split_top
  rw [hres]
  simp

theorem pyStrip_parenthesized (mid : List Char) :
    pyStrip (['('] ++ mid ++ [')']) = ['('] ++ mid ++ [')'] := by
  apply pyStrip_eq_self
  · intro c hc
    simp only [List.cons_append, List.nil_append, List.head?_cons] at hc
    rw [show c = '(' by injection hc with h; exact h.symm]
    decide
  · intro c hc
    rw [List.getLast?_append] at hc
    simp only [List.getLast?_singleton, Option.or_some] at hc
    rw [show c = ')' by injection hc with h; exact h.symm]
    decide

theorem split_or_C3 {A B C : List Char} (hA : PlainId A) (hB : PlainId B) (hC : PlainId C) :
    split_top (['('] ++ (A ++ andOp ++ B) ++ [')'] ++ orOp ++ C) orOp
      = some [['('] ++ (A ++ andOp ++ B) ++ [')'], C] := by
  have hnorm : ['('] ++ (A ++ andOp ++ B) ++ [')'] ++ orOp ++ C
      = '(' :: (A ++ (andOp ++ (B ++ (')' :: (orOp ++ C))))) := by
    simp [List.append_assoc]
  have hres : splitGo orOp (['('] ++ (A ++ andOp ++ B) ++ [')'] ++ orOp ++ C) 0 [] []
      = [['('] ++ (A ++ andOp ++ B) ++ [')'], C] := by
    rw [hnorm]
    rw [splitGo_open orOp 0 [] []]
    rw [show (0 : Int) + 1 = 1 by norm_num]
    rw [splitGo_nonzero_seg A _ _ (by decide) hA.noparen]
    rw [show andOp ++ (B ++ (')' :: (orOp ++ C)))
        = andOp ++ (B ++ (')' :: (orOp ++ C))) from rfl]
    rw [splitGo_nonzero_seg andOp _ _ (by decide) (by decide)]
    rw [splitGo_nonzero_seg B _ _ (by decide) hB.noparen]
    rw [splitGo_close orOp 1 _ _]
    rw [show (1 : Int) - 1 = 0 by norm_num]
    rw [orOp_eq]
    rw [splitGo_op_match _ _ orOp_up]
    have hC2 := @splitGo_plain_seg ['O', 'R', ' '] C [] 0 []
      ([] ++ [pyStrip (((([] ++ ['(']) ++ A ++ andOp) ++ B) ++ [')'])]) hC.2
    rw [List.append_nil] at hC2
    rw [hC2, splitGo_nil, if_neg (by simp [hC.1])]
    have hacc : (((([] ++ ['(']) ++ A ++ andOp) ++ B) ++ [')'])
        = ['('] ++ (A ++ andOp ++ B) ++ [')'] := by
      simp [List.append_assoc]
    rw [hacc, pyStrip_parenthesized]
    simp [hC.strip]
  unfold split_top
  rw [hres]
  simp

theorem split_top_plain {op' : List Char} {A : List Char}
    (hA : ∀ c ∈ A, c ≠ '(' ∧ c ≠ ')' ∧ pyIsSpace c = false) :
    split_top A (' ' :: op') = none := by
  have hres : splitGo (' ' :: op') A 0 [] [] = if A = [] then [] else [pyStrip A] := by
    have h1 := @splitGo_plain_seg op' A [] 0 [] [] hA
    rw [List.append_nil] at h1
    rw [h1, splitGo_nil]
    by_cases hA0 : A = [] <;> simp [hA0]
  unfold split_top
  rw [hres]
  by_cases hA0 : A = [] <;> simp [hA0]

/-! ### Evaluating the parser on the claim shapes -/

theorem parseF_succ (fuel : Nat) (expr : List Char) :
    parseF (fuel + 1) expr =
      (if (pyStrip expr).head? = some '(' ∧ (pyStrip expr).getLast? = some ')'
          ∧ parenWrapped (pyStrip expr) 0 = true then
        parseF fuel (pyStrip ((pyStrip expr).drop 1).dropLast)
      else
        match split_top (pyStrip expr) orOp with
        | some parts =>
          match parts with
          | [] => .leaf (pyStrip expr)
          | p :: ps => (ps.map (parseF fuel)).foldl .orE (parseF fuel p)
        | none =>
          match split_top (pyStrip expr) andOp with
          | some parts =>
            match parts with
            | [] => .leaf (pyStrip expr)
            | p :: ps => (ps.map (parseF fuel)).foldl .andE (parseF fuel p)
          | none =>
            match withFind [] (pyStrip expr) with
            | some g => .withE (parseF fuel (pyStrip g.1)) (pyStrip g.2)
            | none => .leaf (pyStrip expr)) := rfl

theorem parseF_plain {A : List Char} (hA : PlainId A) (n : Nat) :
    parseF (n + 1) A = .leaf A := by
  have hhead : ¬(A.head? = some '(' ∧ A.getLast? = some ')' ∧ parenWrapped A 0 = true) := by
    rintro ⟨h1, -, -⟩
    have h2 : '(' ∈ A := List.mem_of_mem_head? (by rw [h1]; rfl)
    exact (hA.2 _ h2).1 rfl
  have hor : split_top A orOp = none := by
    rw [orOp_eq]; exact split_top_plain hA.2
  have hand : split_top A andOp = none := by
    rw [andOp_eq]; exact split_top_plain hA.2
  have hwf : withFind [] A = none := by
    have h1 := @withFind_plain_seg A [] [] hA.no_nl
    rw [List.append_nil, List.nil_append] at h1
    rw [h1, withFind_nil]
  simp only [parseF, hA.strip]
  rw [if_neg hhead, hor, hand, hwf]

theorem head_ne_paren {A X : List Char} (hA : PlainId A) :
    ¬((A ++ X).head? = some '(' ∧ (A ++ X).getLast? = some ')'
      ∧ parenWrapped (A ++ X) 0 = true) := by
  rintro ⟨h1, -, -⟩
  rcases A with _ | ⟨a, A'⟩
  · exact absurd rfl hA.1
  · simp at h1
    exact (hA.2 a (by simp)).1 h1

theorem parseF_and_pair {A B : List Char} (hA : PlainId A) (hB : PlainId B) (n : Nat) :
    parseF (n + 2) (A ++ andOp ++ B) = .andE (.leaf A) (.leaf B) := by
  have hstrip : pyStrip (A ++ andOp ++ B) = A ++ andOp ++ B := pyStrip_sandwich andOp hA hB
  have hhead : ¬((A ++ andOp ++ B).head? = some '(' ∧ (A ++ andOp ++ B).getLast? = some ')'
      ∧ parenWrapped (A ++ andOp ++ B) 0 = true) := by
    have h0 := head_ne_paren (X := andOp ++ B) hA
    rw [← List.append_assoc] at h0
    exact h0
  have hor := split_or_none_over_and hA hB
  have hand := split_and_pair hA hB
  rw [parseF_succ, hstrip]
  rw [if_neg hhead, hor, hand]
  simp only [List.map_cons, List.map_nil, List.foldl_cons, List.foldl_nil]
  rw [parseF_plain hA n, parseF_plain hB n]

theorem parseF_or_pair {A B : List Char} (hA : PlainId A) (hB : PlainId B) (n : Nat) :
    parseF (n + 2) (A ++ orOp ++ B) = .orE (.leaf A) (.leaf B) := by
  have hstrip : pyStrip (A ++ orOp ++ B) = A ++ orOp ++ B := pyStrip_sandwich orOp hA hB
  have hhead : ¬((A ++ orOp ++ B).head? = some '(' ∧ (A ++ orOp ++ B).getLast? = some ')'
      ∧ parenWrapped (A ++ orOp ++ B) 0 = true) := by
    have h0 := head_ne_paren (X := orOp ++ B) hA
    rw [← List.append_assoc] at h0
    exact h0
  have hor := split_or_pair hA hB
  rw [parseF_succ, hstrip]
  rw [if_neg hhead, hor]
  simp only [List.map_cons, List.map_nil, List.foldl_cons, List.foldl_nil]
  rw [parseF_plain hA n, parseF_plain hB n]

theorem parseF_with_pair {A B : List Char} (hA : PlainId A) (hB : PlainId B) (n : Nat) :
    parseF (n + 2) (A ++ withSep ++ B) = .withE (.leaf A) B := by
  have hstrip : pyStrip (A ++ withSep ++ B) = A ++ withSep ++ B :=
    pyStrip_sandwich withSep hA hB
  have hhead : ¬((A ++ withSep ++ B).head? = some '(' ∧ (A ++ withSep ++ B).getLast? = some ')'
      ∧ parenWrapped (A ++ withSep ++ B) 0 = true) := by
    have h0 := head_ne_paren (X := withSep ++ B) hA
    rw [← List.append_assoc] at h0
    exact h0
  have hor := split_or_none_over_with hA hB
  have hand := split_and_none_over_with hA hB
  have hwf2 : withFind [] (A ++ withSep ++ B) = some (A, B) := by
    rw [List.append_assoc]
    have h1 := @withFind_plain_seg A (withSep ++ B) [] hA.no_nl
    rw [h1, List.nil_append]
    rcases B with _ | ⟨b, B'⟩
    · exact absurd rfl hB.1
    · exact withFind_hit A (tryWith_sep (hB.nonspace b (by simp))
        (fun x hx => (hB.no_nl x hx).2))
  rw [parseF_succ, hstrip]
  rw [if_neg hhead, hor, hand, hwf2]
  show (parseF (n + 1) (pyStrip A)).withE (pyStrip B) = (ExprNode.leaf A).withE B
  rw [hA.strip, parseF_plain hA n, hB.strip]

theorem parseF_C1 {A B C : List Char} (hA : PlainId A) (hB : PlainId B) (hC : PlainId C)
    (n : Nat) :
    parseF (n + 3) (A ++ orOp ++ (B ++ andOp ++ C))
      = .orE (.leaf A) (.andE (.leaf B) (.leaf C)) := by
  have e : A ++ orOp ++ (B ++ andOp ++ C) = A ++ (orOp ++ B ++ andOp) ++ C := by
    simp [List.append_assoc]
  have hstrip : pyStrip (A ++ orOp ++ (B ++ andOp ++ C)) = A ++ orOp ++ (B ++ andOp ++ C) := by
    rw [e]; exact pyStrip_sandwich _ hA hC
  have hhead : ¬((A ++ orOp ++ (B ++ andOp ++ C)).head? = some '('
      ∧ (A ++ orOp ++ (B ++ andOp ++ C)).getLast? = some ')'
      ∧ parenWrapped (A ++ orOp ++ (B ++ andOp ++ C)) 0 = true) := by
    have h0 := head_ne_paren (X := orOp ++ (B ++ andOp ++ C)) hA
    rw [← List.append_assoc] at h0
    exact h0
  have hor := split_or_C1 hA hB hC
  rw [parseF_succ, hstrip, if_neg hhead, hor]
  show (List.map (parseF (n + 2)) [B ++ andOp ++ C]).foldl ExprNode.orE (parseF (n + 2) A)
      = ExprNode.orE (.leaf A) (.andE (.leaf B) (.leaf C))
  simp only [List.map_cons, List.map_nil, List.foldl_cons, List.foldl_nil]
  rw [parseF_and_pair hB hC n]
  rw [show parseF (n + 2) A = .leaf A from parseF_plain hA (n + 1)]

theorem tryWith_sep' {t : List Char} (ht : t ≠ [])
    (hh : ∀ c, t.head? = some c → pyIsSpace c = false)
    (hnl : ∀ x ∈ t, x ≠ '\n') : tryWith (withSep ++ t) = some t := by
  rcases t with _ | ⟨c, t'⟩
  · exact absurd rfl ht
  · exact tryWith_sep (hh c rfl) hnl

theorem parseF_and_triple {A B C : List Char} (hA : PlainId A) (hB : PlainId B)
    (hC : PlainId C)
    (hno : containsCI orOp (A ++ andOp ++ B ++ andOp ++ C) = false) (n : Nat) :
    parseF (n + 2) (A ++ andOp ++ B ++ andOp ++ C)
      = .andE (.andE (.leaf A) (.leaf B)) (.leaf C) := by
  have e : A ++ andOp ++ B ++ andOp ++ C = A ++ (andOp ++ B ++ andOp) ++ C := by
    simp [List.append_assoc]
  have hstrip : pyStrip (A ++ andOp ++ B ++ andOp ++ C) = A ++ andOp ++ B ++ andOp ++ C := by
    rw [e]; exact pyStrip_sandwich _ hA hC
  have hhead : ¬((A ++ andOp ++ B ++ andOp ++ C).head? = some '('
      ∧ (A ++ andOp ++ B ++ andOp ++ C).getLast? = some ')'
      ∧ parenWrapped (A ++ andOp ++ B ++ andOp ++ C) 0 = true) := by
    have h0 := head_ne_paren (X := andOp ++ B ++ andOp ++ C) hA
    rw [show A ++ (andOp ++ B ++ andOp ++ C) = A ++ andOp ++ B ++ andOp ++ C by
      simp [List.append_assoc]] at h0
    exact h0
  have hor : split_top (A ++ andOp ++ B ++ andOp ++ C) orOp = none :=
    split_top_eq_none_of_not_occurs (not_occursCI_of_containsCI_false hno)
  have hand := split_and_triple hA hB hC
  rw [parseF_succ, hstrip, if_neg hhead, hor, hand]
  show (List.map (parseF (n + 1)) [B, C]).foldl ExprNode.andE (parseF (n + 1) A)
      = ExprNode.andE (.andE (.leaf A) (.leaf B)) (.leaf C)
  simp only [List.map_cons, List.map_nil, List.foldl_cons, List.foldl_nil]
  rw [parseF_plain hA n, parseF_plain hB n, parseF_plain hC n]

theorem parseF_or_triple {A B C : List Char} (hA : PlainId A) (hB : PlainId B)
    (hC : PlainId C) (n : Nat) :
    parseF (n + 2) (A ++ orOp ++ B ++ orOp ++ C)
      = .orE (.orE (.leaf A) (.leaf B)) (.leaf C) := by
  have e : A ++ orOp ++ B ++ orOp ++ C = A ++ (orOp ++ B ++ orOp) ++ C := by
    simp [List.append_assoc]
  have hstrip : pyStrip (A ++ orOp ++ B ++ orOp ++ C) = A ++ orOp ++ B ++ orOp ++ C := by
    rw [e]; exact pyStrip_sandwich _ hA hC
  have hhead : ¬((A ++ orOp ++ B ++ orOp ++ C).head? = some '('
      ∧ (A ++ orOp ++ B ++ orOp ++ C).getLast? = some ')'
      ∧ parenWrapped (A ++ orOp ++ B ++ orOp ++ C) 0 = true) := by
    have h0 := head_ne_paren (X := orOp ++ B ++ orOp ++ C) hA
    rw [show A ++ (orOp ++ B ++ orOp ++ C) = A ++ orOp ++ B ++ orOp ++ C by
      simp [List.append_assoc]] at h0
    exact h0
  have hor := split_or_triple hA hB hC
  rw [parseF_succ, hstrip, if_neg hhead, hor]
  show (List.map (parseF (n + 1)) [B, C]).foldl ExprNode.orE (parseF (n + 1) A)
      = ExprNode.orE (.orE (.leaf A) (.leaf B)) (.leaf C)
  simp only [List.map_cons, List.map_nil, List.foldl_cons, List.foldl_nil]
  rw [parseF_plain hA n, parseF_plain hB n, parseF_plain hC n]

theorem parseF_C10 {A B C : List Char} (hA : PlainId A) (hB : PlainId B) (hC : PlainId C)
    (hno1 : containsCI orOp (A ++ withSep ++ (B ++ withSep ++ C)) = false)
    (hno2 : containsCI andOp (A ++ withSep ++ (B ++ withSep ++ C)) = false) (n : Nat) :
    parseF (n + 2) (A ++ withSep ++ (B ++ withSep ++ C))
      = .withE (.leaf A) (B ++ withSep ++ C) := by
  have e : A ++ withSep ++ (B ++ withSep ++ C) = A ++ (withSep ++ B ++ withSep) ++ C := by
    simp [List.append_assoc]
  have hstrip : pyStrip (A ++ withSep ++ (B ++ withSep ++ C))
      = A ++ withSep ++ (B ++ withSep ++ C) := by
    rw [e]; exact pyStrip_sandwich _ hA hC
  have hstrip2 : pyStrip (B ++ withSep ++ C) = B ++ withSep ++ C :=
    pyStrip_sandwich withSep hB hC
  have hhead : ¬((A ++ withSep ++ (B ++ withSep ++ C)).head? = some '('
      ∧ (A ++ withSep ++ (B ++ withSep ++ C)).getLast? = some ')'
      ∧ parenWrapped (A ++ withSep ++ (B ++ withSep ++ C)) 0 = true) := by
    have h0 := head_ne_paren (X := withSep ++ (B ++ withSep ++ C)) hA
    rw [← List.append_assoc] at h0
    exact h0
  have hor : split_top (A ++ withSep ++ (B ++ withSep ++ C)) orOp = none :=
    split_top_eq_none_of_not_occurs (not_occursCI_of_containsCI_false hno1)
  have hand : split_top (A ++ withSep ++ (B ++ withSep ++ C)) andOp = none :=
    split_top_eq_none_of_not_occurs (not_occursCI_of_containsCI_false hno2)
  have hwf2 : withFind [] (A ++ withSep ++ (B ++ withSep ++ C))
      = some (A, B ++ withSep ++ C) := by
    rw [List.append_assoc]
    have h1 := @withFind_plain_seg A (withSep ++ (B ++ withSep ++ C)) [] hA.no_nl
    rw [h1, List.nil_append]
    apply withFind_hit
    apply tryWith_sep'
    · simp [hB.1]
    · intro c hc
      rcases B with _ | ⟨b, B'⟩
      · exact absurd rfl hB.1
      · simp at hc
        rw [← hc]
        exact hB.nonspace b (by simp)
    · intro x hx
      rcases List.mem_append.1 hx with hx | hx
      · rcases List.mem_append.1 hx with hx | hx
        · exact (hB.no_nl x hx).2
        · exact (by decide : ∀ y ∈ withSep, y ≠ '\n') x hx
      · exact (hC.no_nl x hx).2
  rw [parseF_succ, hstrip, if_neg hhead, hor, hand, hwf2]
  show (parseF (n + 1) (pyStrip A)).withE (pyStrip (B ++ withSep ++ C))
      = (ExprNode.leaf A).withE (B ++ withSep ++ C)
  rw [hA.strip, parseF_plain hA n, hstrip2]

theorem parseF_paren_pair {A B : List Char} (hA : PlainId A) (hB : PlainId B) (n : Nat) :
    parseF (n + 3) (['('] ++ (A ++ andOp ++ B) ++ [')']) = .andE (.leaf A) (.leaf B) := by
  have hstrip := pyStrip_parenthesized (A ++ andOp ++ B)
  have hnoparen : ∀ c ∈ A ++ andOp ++ B, c ≠ '(' ∧ c ≠ ')' := by
    intro c hc
    rcases List.mem_append.1 hc with hc | hc
    · rcases List.mem_append.1 hc with hc | hc
      · exact hA.noparen c hc
      · exact (by decide : ∀ y ∈ andOp, y ≠ '(' ∧ y ≠ ')') c hc
    · exact hB.noparen c hc
  have hhead : (['('] ++ (A ++ andOp ++ B) ++ [')']).head? = some '(' := by
    simp
  have hlast : (['('] ++ (A ++ andOp ++ B) ++ [')']).getLast? = some ')' := by
    rw [List.getLast?_append]
    simp
  have hwrap : parenWrapped (['('] ++ (A ++ andOp ++ B) ++ [')']) 0 = true := by
    rw [show ['('] ++ (A ++ andOp ++ B) ++ [')'] = '(' :: ((A ++ andOp ++ B) ++ [')'])
      by simp]
    exact parenWrapped_wrap (A ++ andOp ++ B) hnoparen
  have hdrop : ((['('] ++ (A ++ andOp ++ B) ++ [')']).drop 1).dropLast = A ++ andOp ++ B := by
    rw [show ['('] ++ (A ++ andOp ++ B) ++ [')'] = '(' :: ((A ++ andOp ++ B) ++ [')'])
      by simp]
    rw [List.drop_succ_cons, List.drop_zero, List.dropLast_concat]
  rw [parseF_succ, hstrip, if_pos ⟨hhead, hlast, hwrap⟩, hdrop,
    pyStrip_sandwich andOp hA hB]
  exact parseF_and_pair hA hB n

theorem parseF_C3 {A B C : List Char} (hA : PlainId A) (hB : PlainId B) (hC : PlainId C)
    (n : Nat) :
    parseF (n + 4) (['('] ++ (A ++ andOp ++ B) ++ [')'] ++ orOp ++ C)
      = .orE (.andE (.leaf A) (.leaf B)) (.leaf C) := by
  have hstrip : pyStrip (['('] ++ (A ++ andOp ++ B) ++ [')'] ++ orOp ++ C)
      = ['('] ++ (A ++ andOp ++ B) ++ [')'] ++ orOp ++ C := by
    apply pyStrip_eq_self
    · intro c hc
      simp only [List.cons_append, List.nil_append, List.append_assoc,
        List.head?_cons] at hc
      rw [show c = '(' by injection hc with h; exact h.symm]
      decide
    · intro c hc
      rw [List.getLast?_append, List.getLast?_eq_getLast C hC.1] at hc
      simp only [Option.or_some] at hc
      rw [show c = C.getLast hC.1 by injection hc with h; exact h.symm]
      exact hC.nonspace _ (List.getLast_mem hC.1)
  have hlastC : (['('] ++ (A ++ andOp ++ B) ++ [')'] ++ orOp ++ C).getLast? = C.getLast? := by
    rw [List.getLast?_append, List.getLast?_eq_getLast C hC.1]
    simp
  have hhead : ¬((['('] ++ (A ++ andOp ++ B) ++ [')'] ++ orOp ++ C).head? = some '('
      ∧ (['('] ++ (A ++ andOp ++ B) ++ [')'] ++ orOp ++ C).getLast? = some ')'
      ∧ parenWrapped (['('] ++ (A ++ andOp ++ B) ++ [')'] ++ orOp ++ C) 0 = true) := by
    rintro ⟨-, h2, -⟩
    rw [hlastC, List.getLast?_eq_getLast C hC.1] at h2
    have h3 : C.getLast hC.1 = ')' := by injection h2
    exact (hC.2 _ (List.getLast_mem hC.1)).2.1 h3
  have hor := split_or_C3 hA hB hC
  rw [parseF_succ, hstrip, if_neg hhead, hor]
  show (List.map (parseF (n + 3)) [C]).foldl ExprNode.orE
      (parseF (n + 3) (['('] ++ (A ++ andOp ++ B) ++ [')']))
      = ExprNode.orE (.andE (.leaf A) (.leaf B)) (.leaf C)
  simp only [List.map_cons, List.map_nil, List.foldl_cons, List.foldl_nil]
  rw [parseF_paren_pair hA hB n]
  rw [show parseF (n + 3) C = .leaf C from parseF_plain hC (n + 2)]

theorem parse_leaf_of_no_ops {s : List Char}
    (hp1 : '(' ∉ s)
    (hor : containsCI orOp s = false)
    (hand : containsCI andOp s = false)
    (hww : hasWsWith s = false) :
    parse s = .leaf (pyStrip s) := by
  have hinf : pyStrip s <:+: s := pyStrip_infix s
  have hor2 : ¬OccursCI orOp (pyStrip s) :=
    fun h => not_occursCI_of_containsCI_false hor (occursCI_mono hinf h)
  have hand2 : ¬OccursCI andOp (pyStrip s) :=
    fun h => not_occursCI_of_containsCI_false hand (occursCI_mono hinf h)
  have hwfnone : withFind [] (pyStrip s) = none := by
    apply withFind_none_of_all
    intro t ht
    cases htw : tryWith t with
    | none => rfl
    | some g2 =>
      exfalso
      have hocc := occursWW_mono (ht.isInfix.trans hinf) (occursWW_of_tryWith htw)
      rw [hasWsWith_of_occursWW hocc] at hww
      simp at hww
  have hhead : ¬((pyStrip s).head? = some '(' ∧ (pyStrip s).getLast? = some ')'
      ∧ parenWrapped (pyStrip s) 0 = true) := by
    rintro ⟨h1, -, -⟩
    have h2 : '(' ∈ pyStrip s := List.mem_of_mem_head? (by rw [h1]; rfl)
    exact hp1 (hinf.sublist.subset h2)
  show parseF (s.length + 1) s = .leaf (pyStrip s)
  rw [parseF_succ, if_neg hhead,
    split_top_eq_none_of_not_occurs hor2, split_top_eq_none_of_not_occurs hand2, hwfnone]

/-! ### Renderer lemmas -/

theorem indiv_fst (L : List (List Char × List Char)) (p : List Char)
    (m m' : Finset (List Char)) (v : List Char) (h : Bool) :
    (get_individual_license_text L p m v h).1 = (get_individual_license_text L p m' v h).1 := by
  unfold get_individual_license_text
  by_cases h1 : lowerStr v = s2l "others"
  · rw [if_pos h1, if_pos h1]
  · rw [if_neg h1, if_neg h1]
    cases dictGet (lowerStr v) L <;> rfl

theorem indiv_snd (L : List (List Char × List Char)) (p : List Char)
    (m : Finset (List Char)) (v : List Char) (h : Bool) :
    (get_individual_license_text L p m v h).2
      = m ∪ (if lowerStr v = s2l "others" then ∅ else
          match dictGet (lowerStr v) L with
          | some _ => ∅
          | none => {v}) := by
  unfold get_individual_license_text
  by_cases h1 : lowerStr v = s2l "others"
  · rw [if_pos h1, if_pos h1]; simp
  · rw [if_neg h1, if_neg h1]
    cases h2 : dictGet (lowerStr v) L
    · simp [Finset.insert_eq, Finset.union_comm]
    · simp

theorem renderNode_fst (L : List (List Char × List Char)) (p : List Char) (h : Bool) :
    ∀ (e : ExprNode) (m m' : Finset (List Char)),
      (renderNode L p h e m).1 = (renderNode L p h e m').1 := by
  intro e
  induction e with
  | leaf v =>
    intro m m'
    simp only [renderNode]
    rw [indiv_fst L p m m' v h]
    split_ifs <;> rfl
  | withE l exc ih =>
    intro m m'
    simp only [renderNode]
    rw [ih m m', indiv_fst L p
      (renderNode L p h l m).2 (renderNode L p h l m').2 exc true]
  | andE l r ihl ihr =>
    intro m m'
    simp only [renderNode]
    rw [ihl m m', ihr (renderNode L p h l m).2 (renderNode L p h l m').2]
  | orE l r ihl ihr =>
    intro m m'
    simp only [renderNode]
    rw [ihl m m', ihr (renderNode L p h l m).2 (renderNode L p h l m').2]

theorem renderNode_snd (L : List (List Char × List Char)) (p : List Char) (h : Bool) :
    ∀ (e : ExprNode) (m : Finset (List Char)),
      (renderNode L p h e m).2 = m ∪ missOf L e := by
  intro e
  induction e with
  | leaf v =>
    intro m
    have hsnd : (renderNode L p h (.leaf v) m).2 = (get_individual_license_text L p m v h).2 := by
      simp only [renderNode]
      split_ifs <;> rfl
    rw [hsnd, indiv_snd]
    rfl
  | withE l exc ih =>
    intro m
    simp only [renderNode, missOf]
    rw [indiv_snd, ih m, Finset.union_assoc]
  | andE l r ihl ihr =>
    intro m
    simp only [renderNode, missOf]
    rw [ihr, ihl, Finset.union_assoc]
  | orE l r ihl ihr =>
    intro m
    simp only [renderNode, missOf]
    rw [ihr, ihl, Finset.union_assoc]

/-! ### Claim theorems -/

/-- Claim C1: at every recursion level `_parse_expr` attempts the top-level
split on the literal operator `" OR "` (case-insensitive) before `" AND "`, so
`OR` binds looser than `AND`: for all operator-free, parenthesis-free
identifiers `A`, `B`, `C` (modelled as non-empty strings of non-parenthesis,
non-whitespace characters), parsing `"A OR B AND C"` yields
`Or(Leaf A, And(Leaf B, Leaf C))`. -/
theorem C1_or_binds_looser (A B C : List Char)
    (hA : PlainId A) (hB : PlainId B) (hC : PlainId C) :
    parse (A ++ orOp ++ (B ++ andOp ++ C))
      = .orE (.leaf A) (.andE (.leaf B) (.leaf C)) := by
  unfold parse
  obtain ⟨n, hn⟩ : ∃ n, (A ++ orOp ++ (B ++ andOp ++ C)).length + 1 = n + 3 := by
    refine ⟨(A ++ orOp ++ (B ++ andOp ++ C)).length - 2, ?_⟩
    simp only [List.length_append]
    have h4 : orOp.length = 4 := rfl
    omega
  rw [hn]
  exact parseF_C1 hA hB hC n

theorem C1_or_binds_looser_witness :
    PlainId (s2l "A") ∧ PlainId (s2l "B") ∧ PlainId (s2l "C") ∧
    parse (s2l "A" ++ orOp ++ (s2l "B" ++ andOp ++ s2l "C"))
      = .orE (.leaf (s2l "A")) (.andE (.leaf (s2l "B")) (.leaf (s2l "C"))) :=
  ⟨by decide, by decide, by decide,
    C1_or_binds_looser (s2l "A") (s2l "B") (s2l "C") (by decide) (by decide) (by decide)⟩

theorem splitGo_eq_splitGoF (op : List Char) :
    ∀ (fuel : Nat) (l : List Char) (d : Int) (acc : List Char) (res : List (List Char)),
      l.length < fuel → splitGo op l d acc res = splitGoF op fuel l d acc res
  | 0, l, _, _, _, h => absurd h (by omega)
  | fuel + 1, [], d, acc, res, _ => by rw [splitGo_nil]; rfl
  | fuel + 1, c :: rest, d, acc, res, h => by
    have hr : rest.length < fuel := by simp at h; omega
    have hd : (rest.drop (op.length - 1)).length < fuel := by
      have := List.length_drop (op.length - 1) rest
      omega
    rw [splitGo_cons]
    show _ = splitGoF op (fuel + 1) (c :: rest) d acc res
    unfold splitGoF
    by_cases h1 : c = '('
    · rw [if_pos h1, if_pos h1, splitGo_eq_splitGoF op fuel rest _ _ _ hr]
    · rw [if_neg h1, if_neg h1]
      by_cases h2 : c = ')'
      · rw [if_pos h2, if_pos h2, splitGo_eq_splitGoF op fuel rest _ _ _ hr]
      · rw [if_neg h2, if_neg h2]
        by_cases h3 : d = 0 ∧ ((c :: rest).take op.length).map pyToUpper = op
        · rw [if_pos h3, if_pos h3, splitGo_eq_splitGoF op fuel _ _ _ _ hd]
        · rw [if_neg h3, if_neg h3, splitGo_eq_splitGoF op fuel rest _ _ _ hr]

theorem split_top_eq_split_topF (expr op : List Char) :
    split_top expr op = split_topF expr op := by
  unfold split_top split_topF
  rw [splitGo_eq_splitGoF op (expr.length + 1) expr 0 [] [] (by omega)]

theorem parseFE_succ (fuel : Nat) (expr : List Char) :
    parseFE (fuel + 1) expr =
      (if (pyStrip expr).head? = some '(' ∧ (pyStrip expr).getLast? = some ')'
          ∧ parenWrapped (pyStrip expr) 0 = true then
        parseFE fuel (pyStrip ((pyStrip expr).drop 1).dropLast)
      else
        match split_topF (pyStrip expr) orOp with
        | some parts =>
          match parts with
          | [] => .leaf (pyStrip expr)
          | p :: ps => (ps.map (parseFE fuel)).foldl .orE (parseFE fuel p)
        | none =>
          match split_topF (pyStrip expr) andOp with
          | some parts =>
            match parts with
            | [] => .leaf (pyStrip expr)
            | p :: ps => (ps.map (parseFE fuel)).foldl .andE (parseFE fuel p)
          | none =>
            match withFind [] (pyStrip expr) with
            | some g => .withE (parseFE fuel (pyStrip g.1)) (pyStrip g.2)
            | none => .leaf (pyStrip expr)) := rfl

theorem parseF_eq_parseFE : ∀ (n : Nat) (expr : List Char), parseF n expr = parseFE n expr
  | 0, _ => rfl
  | n + 1, expr => by
    have hrec : ∀ x, parseF n x = parseFE n x := parseF_eq_parseFE n
    rw [parseF_succ, parseFE_succ, ← split_top_eq_split_topF, ← split_top_eq_split_topF]
    by_cases hpar : (pyStrip expr).head? = some '(' ∧ (pyStrip expr).getLast? = some ')'
        ∧ parenWrapped (pyStrip expr) 0 = true
    · rw [if_pos hpar, if_pos hpar, hrec]
    · rw [if_neg hpar, if_neg hpar]
      rw [show parseF n = parseFE n from funext hrec]

theorem parse_eq_parseE (expr : List Char) : parse expr = parseE expr :=
  parseF_eq_parseFE (expr.length + 1) expr
/-- Claim C2 counterexample: `"or"` is itself operator-free (it contains no
occurrence of the literal `" OR "`) and parenthesis-free, yet
`"A AND or AND C"` is not folded into nested `And` nodes: together with the
separator spaces the middle operand forms a top-level case-insensitive
`" OR "`, which `_parse_expr` splits on first, producing
`Or(Leaf "A AND", Leaf "AND C")`. -/
theorem C2_counterexample :
    PlainId (s2l "A") ∧ PlainId (s2l "or") ∧ PlainId (s2l "C") ∧
    parse (s2l "A" ++ andOp ++ s2l "or" ++ andOp ++ s2l "C")
      = .orE (.leaf (s2l "A AND")) (.leaf (s2l "AND C")) ∧
    parse (s2l "A" ++ andOp ++ s2l "or" ++ andOp ++ s2l "C")
      ≠ .andE (.andE (.leaf (s2l "A")) (.leaf (s2l "or"))) (.leaf (s2l "C")) := by
  rw [parse_eq_parseE]
  decide

/-- Claim C2 (amended): `And`/`Or` nodes are binary by construction of the
tree type; for all operator-free, parenthesis-free identifiers the parser
folds `"A AND B"`, `"A OR B"` and `"A OR B OR C"` as claimed, and an
`"A AND B AND C"` chain folds left-associatively provided the composed string
contains no case-insensitive occurrence of `" OR "` (an operand such as
`"or"` recombines with the neighbouring separator spaces and the parser
splits there first). -/
theorem C2_binary_left_fold (A B C : List Char)
    (hA : PlainId A) (hB : PlainId B) (hC : PlainId C) :
    parse (A ++ andOp ++ B) = .andE (.leaf A) (.leaf B) ∧
    parse (A ++ orOp ++ B) = .orE (.leaf A) (.leaf B) ∧
    parse (A ++ orOp ++ B ++ orOp ++ C) = .orE (.orE (.leaf A) (.leaf B)) (.leaf C) ∧
    (containsCI orOp (A ++ andOp ++ B ++ andOp ++ C) = false →
      parse (A ++ andOp ++ B ++ andOp ++ C)
        = .andE (.andE (.leaf A) (.leaf B)) (.leaf C)) := by
  refine ⟨?_, ?_, ?_, fun hno => ?_⟩
  · unfold parse
    obtain ⟨n, hn⟩ : ∃ n, (A ++ andOp ++ B).length + 1 = n + 2 := by
      refine ⟨(A ++ andOp ++ B).length - 1, ?_⟩
      simp only [List.length_append]
      have h5 : andOp.length = 5 := rfl
      omega
    rw [hn]
    exact parseF_and_pair hA hB n
  · unfold parse
    obtain ⟨n, hn⟩ : ∃ n, (A ++ orOp ++ B).length + 1 = n + 2 := by
      refine ⟨(A ++ orOp ++ B).length - 1, ?_⟩
      simp only [List.length_append]
      have h4 : orOp.length = 4 := rfl
      omega
    rw [hn]
    exact parseF_or_pair hA hB n
  · unfold parse
    obtain ⟨n, hn⟩ : ∃ n, (A ++ orOp ++ B ++ orOp ++ C).length + 1 = n + 2 := by
      refine ⟨(A ++ orOp ++ B ++ orOp ++ C).length - 1, ?_⟩
      simp only [List.length_append]
      have h4 : orOp.length = 4 := rfl
      omega
    rw [hn]
    exact parseF_or_triple hA hB hC n
  · unfold parse
    obtain ⟨n, hn⟩ : ∃ n, (A ++ andOp ++ B ++ andOp ++ C).length + 1 = n + 2 := by
      refine ⟨(A ++ andOp ++ B ++ andOp ++ C).length - 1, ?_⟩
      simp only [List.length_append]
      have h5 : andOp.length = 5 := rfl
      omega
    rw [hn]
    exact parseF_and_triple hA hB hC hno n

theorem C2_binary_left_fold_witness :
    PlainId (s2l "A") ∧
    containsCI orOp (s2l "A" ++ andOp ++ s2l "B" ++ andOp ++ s2l "C") = false ∧
    parse (s2l "A" ++ andOp ++ s2l "B")
      = .andE (.leaf (s2l "A")) (.leaf (s2l "B")) ∧
    parse (s2l "A" ++ andOp ++ s2l "B" ++ andOp ++ s2l "C")
      = .andE (.andE (.leaf (s2l "A")) (.leaf (s2l "B"))) (.leaf (s2l "C")) := by
  have h := C2_binary_left_fold (s2l "A") (s2l "B") (s2l "C")
    (by decide) (by decide) (by decide)
  exact ⟨by decide, by decide, h.1, h.2.2.2 (by decide)⟩

/-- Claim C3: the top-level split counts parenthesis depth character by
character, splits only at depth 0, and a string fully wrapped in one matching
outer pair is stripped and re-parsed: `"(A AND B) OR C"` parses to
`Or(And(Leaf A, Leaf B), Leaf C)` for all operator-free, parenthesis-free
identifiers. -/
theorem C3_paren_strip_and_depth (A B C : List Char)
    (hA : PlainId A) (hB : PlainId B) (hC : PlainId C) :
    parse (['('] ++ (A ++ andOp ++ B) ++ [')'] ++ orOp ++ C)
      = .orE (.andE (.leaf A) (.leaf B)) (.leaf C) := by
  unfold parse
  obtain ⟨n, hn⟩ : ∃ n,
      (['('] ++ (A ++ andOp ++ B) ++ [')'] ++ orOp ++ C).length + 1 = n + 4 := by
    refine ⟨(['('] ++ (A ++ andOp ++ B) ++ [')'] ++ orOp ++ C).length - 3, ?_⟩
    simp only [List.length_append]
    have h4 : orOp.length = 4 := rfl
    have h1 : (['('] : List Char).length = 1 := rfl
    omega
  rw [hn]
  exact parseF_C3 hA hB hC n

theorem C3_paren_strip_and_depth_witness :
    PlainId (s2l "A") ∧ PlainId (s2l "B") ∧ PlainId (s2l "C") ∧
    parse (['('] ++ (s2l "A" ++ andOp ++ s2l "B") ++ [')'] ++ orOp ++ s2l "C")
      = .orE (.andE (.leaf (s2l "A")) (.leaf (s2l "B"))) (.leaf (s2l "C")) :=
  ⟨by decide, by decide, by decide,
    C3_paren_strip_and_depth (s2l "A") (s2l "B") (s2l "C")
      (by decide) (by decide) (by decide)⟩

/-- Claim C4 counterexample: `"A\tWITH\tB"` contains no parenthesis and no
case-insensitive occurrence of the literal operators `" AND "`, `" OR "` or
`" WITH "` (which are delimited by ordinary spaces), yet the parser does not
return a leaf: the `WITH` regex accepts any whitespace around `WITH`, so the
tab-delimited `WITH` still produces a `With` node. -/
theorem C4_counterexample :
    ('(' ∉ s2l "A\tWITH\tB") ∧ (')' ∉ s2l "A\tWITH\tB") ∧
    containsCI (s2l " OR ") (s2l "A\tWITH\tB") = false ∧
    containsCI (s2l " AND ") (s2l "A\tWITH\tB") = false ∧
    containsCI (s2l " WITH ") (s2l "A\tWITH\tB") = false ∧
    pyStrip (s2l "A\tWITH\tB") = s2l "A\tWITH\tB" ∧
    parse (s2l "A\tWITH\tB") = .withE (.leaf (s2l "A")) (s2l "B") ∧
    parse (s2l "A\tWITH\tB") ≠ .leaf (s2l "A\tWITH\tB") := by
  rw [parse_eq_parseE]
  decide

/-- Claim C4 (amended): the parser is a total function (by construction of the
model), and for every input string that contains no `'('` and no `')'`, no
case-insensitive occurrence of `" AND "` or `" OR "`, and no occurrence of
`WITH` (case-insensitive) with at least one whitespace character on each side
— the regex accepts any whitespace around `WITH`, not only spaces — it
returns a single `Leaf` whose id is the trimmed input string. -/
theorem C4_total_leaf_fallback (s : List Char)
    (hp1 : '(' ∉ s) (hp2 : ')' ∉ s)
    (hor : containsCI orOp s = false) (hand : containsCI andOp s = false)
    (hww : hasWsWith s = false) :
    parse s = .leaf (pyStrip s) :=
  parse_leaf_of_no_ops hp1 hor hand hww

theorem C4_total_leaf_fallback_witness :
    (('(' ∉ s2l "Apache--2.0*special") ∧ (')' ∉ s2l "Apache--2.0*special") ∧
      containsCI orOp (s2l "Apache--2.0*special") = false ∧
      containsCI andOp (s2l "Apache--2.0*special") = false ∧
      hasWsWith (s2l "Apache--2.0*special") = false) ∧
    parse (s2l "Apache--2.0*special") = .leaf (pyStrip (s2l "Apache--2.0*special")) :=
  ⟨⟨by decide, by decide, by decide, by decide, by decide⟩,
    C4_total_leaf_fallback (s2l "Apache--2.0*special")
      (by decide) (by decide) (by decide) (by decide) (by decide)⟩

/-- Claim C5: a `" WITH "` match is attempted only after no top-level
`" OR "`/`" AND "` split succeeds; on match the parser returns a `With` node
whose subject is the recursively parsed left side and whose exception id is
the right-side string: `A WITH B` parses to `With(Leaf A, B)` for all
operator-free, parenthesis-free identifiers, `"MIT WITH Exception-1.0"`
parses to `With(Leaf "MIT", "Exception-1.0")`, and `"A WITH B AND C"` splits
on `AND` first so the `WITH` attaches only to the immediately preceding
operand. -/
theorem C5_with_after_and_or (A B : List Char) (hA : PlainId A) (hB : PlainId B) :
    parse (A ++ withSep ++ B) = .withE (.leaf A) B ∧
    parse (s2l "MIT WITH Exception-1.0")
      = .withE (.leaf (s2l "MIT")) (s2l "Exception-1.0") ∧
    parse (s2l "A WITH B AND C")
      = .andE (.withE (.leaf (s2l "A")) (s2l "B")) (.leaf (s2l "C")) := by
  refine ⟨?_, by rw [parse_eq_parseE]; decide, by rw [parse_eq_parseE]; decide⟩
  unfold parse
  obtain ⟨n, hn⟩ : ∃ n, (A ++ withSep ++ B).length + 1 = n + 2 := by
    refine ⟨(A ++ withSep ++ B).length - 1, ?_⟩
    simp only [List.length_append]
    have h6 : withSep.length = 6 := rfl
    omega
  rw [hn]
  exact parseF_with_pair hA hB n

theorem C5_with_after_and_or_witness :
    PlainId (s2l "GPL-2.0") ∧ PlainId (s2l "Classpath-exception-2.0") ∧
    parse (s2l "GPL-2.0" ++ withSep ++ s2l "Classpath-exception-2.0")
      = .withE (.leaf (s2l "GPL-2.0")) (s2l "Classpath-exception-2.0") :=
  ⟨by decide, by decide,
    (C5_with_after_and_or (s2l "GPL-2.0") (s2l "Classpath-exception-2.0")
      (by decide) (by decide)).1⟩

/-- Claim C10: when an expression has no top-level `" AND "`/`" OR "` but two
or more `" WITH "` separators, the regex's lazy left group makes the parser
split at the first one and store the entire unparsed remainder as the
exception id: `"A WITH B WITH C"` parses to `With(Leaf A, "B WITH C")`; the
exception side is kept as a raw string, never parsed as a sub-expression. -/
theorem C10_first_with_split (A B C : List Char)
    (hA : PlainId A) (hB : PlainId B) (hC : PlainId C)
    (hno1 : containsCI orOp (A ++ withSep ++ (B ++ withSep ++ C)) = false)
    (hno2 : containsCI andOp (A ++ withSep ++ (B ++ withSep ++ C)) = false) :
    parse (A ++ withSep ++ (B ++ withSep ++ C))
      = .withE (.leaf A) (B ++ withSep ++ C) := by
  unfold parse
  obtain ⟨n, hn⟩ : ∃ n, (A ++ withSep ++ (B ++ withSep ++ C)).length + 1 = n + 2 := by
    refine ⟨(A ++ withSep ++ (B ++ withSep ++ C)).length - 1, ?_⟩
    simp only [List.length_append]
    have h6 : withSep.length = 6 := rfl
    omega
  rw [hn]
  exact parseF_C10 hA hB hC hno1 hno2 n

theorem C10_first_with_split_witness :
    PlainId (s2l "A") ∧
    containsCI orOp (s2l "A" ++ withSep ++ (s2l "B" ++ withSep ++ s2l "C")) = false ∧
    containsCI andOp (s2l "A" ++ withSep ++ (s2l "B" ++ withSep ++ s2l "C")) = false ∧
    parse (s2l "A" ++ withSep ++ (s2l "B" ++ withSep ++ s2l "C"))
      = .withE (.leaf (s2l "A")) (s2l "B" ++ withSep ++ s2l "C") :=
  ⟨by decide, by decide, by decide,
    C10_first_with_split (s2l "A") (s2l "B") (s2l "C") (by decide) (by decide)
      (by decide) (by decide) (by decide)⟩

/-- Claim C7 counterexample: for the leaf id `"OTHERS"` (case-insensitively
equal to `"others"`) the emitted header is not the fixed literal
`"Regarding 'others' conditions:"`: the code interpolates the id in its
original case, producing `"Regarding 'OTHERS' conditions:"`. -/
theorem C7_counterexample :
    lowerStr (s2l "OTHERS") = s2l "others" ∧
    (get_individual_license_text [] (s2l "licenses.yaml") ∅ (s2l "OTHERS") true).1.1
      ≠ s2l "Regarding " ++ ['\''] ++ s2l "others" ++ ['\''] ++ s2l " conditions:" ∧
    (get_individual_license_text [] (s2l "licenses.yaml") ∅ (s2l "OTHERS") true).1.1
      = s2l "Regarding " ++ ['\''] ++ s2l "OTHERS" ++ ['\''] ++ s2l " conditions:" := by
  decide

/-- Claim C7 (amended): for every rendered leaf id case-insensitively equal to
`"others"`, the resolver emits the explanatory header
`"Regarding '<id>' conditions:"` with the id in its original case (equal to
the fixed lowercase form exactly when the id is spelled `"others"`), uses the
`others_definition` lookup-table entry as the text when present and the
built-in fallback notice otherwise, and never adds anything to the
unresolved-identifiers set. -/
theorem C7_others_leaf (L : List (List Char × List Char)) (p : List Char)
    (m : Finset (List Char)) (w : List Char) (hdr : Bool)
    (ho : lowerStr w = s2l "others") :
    get_individual_license_text L p m w hdr
      = ((s2l "Regarding " ++ ['\''] ++ w ++ ['\''] ++ s2l " conditions:",
          (dictGet (s2l "others_definition") L).getD othersFallback), m) ∧
    (renderNode L p hdr (.leaf w) m).2 = m := by
  have h1 : get_individual_license_text L p m w hdr
      = ((s2l "Regarding " ++ ['\''] ++ w ++ ['\''] ++ s2l " conditions:",
          (dictGet (s2l "others_definition") L).getD othersFallback), m) := by
    unfold get_individual_license_text
    rw [if_pos ho]
  refine ⟨h1, ?_⟩
  simp only [renderNode, h1]
  split_ifs <;> rfl

theorem C7_others_leaf_witness :
    lowerStr (s2l "Others") = s2l "others" ∧
    get_individual_license_text [] (s2l "licenses.yaml") ∅ (s2l "Others") true
      = ((s2l "Regarding " ++ ['\''] ++ s2l "Others" ++ ['\''] ++ s2l " conditions:",
          (dictGet (s2l "others_definition") []).getD othersFallback), ∅) ∧
    (renderNode [] (s2l "licenses.yaml") true (.leaf (s2l "Others")) ∅).2 = ∅ := by
  have h := C7_others_leaf [] (s2l "licenses.yaml") ∅ (s2l "Others") true (by decide)
  exact ⟨by decide, h.1, h.2⟩

theorem get_license_text_fst (L : List (List Char × List Char)) (p expr : List Char)
    (hdr : Bool) (m m' : Finset (List Char)) :
    (get_license_text L p expr hdr m).1 = (get_license_text L p expr hdr m').1 := by
  unfold get_license_text
  by_cases hb : pyStrip expr = []
  · rw [if_pos hb, if_pos hb]
  · rw [if_neg hb, if_neg hb]
    simp only []
    rw [renderNode_fst L p hdr (parse expr) m m']

theorem get_license_text_snd (L : List (List Char × List Char)) (p expr : List Char)
    (hdr : Bool) (m : Finset (List Char)) :
    (get_license_text L p expr hdr m).2
      = if pyStrip expr = [] then m else m ∪ missOf L (parse expr) := by
  unfold get_license_text
  by_cases hb : pyStrip expr = []
  · rw [if_pos hb, if_pos hb]
  · rw [if_neg hb, if_neg hb]
    simp only []
    exact renderNode_snd L p hdr (parse expr) m

/-- Claim C8: rendering is idempotent with respect to repetition: calling
`get_license_text` twice on the same expression with the same lookup table
and header flag (the second call starting from the missing-set state left by
the first) produces identical output strings, and the unresolved set after
the second call equals the set after the first — it is a mathematical set, so
it holds at most one occurrence per distinct missing id however many times
the expression is rendered. -/
theorem C8_render_idempotent (L : List (List Char × List Char)) (p : List Char)
    (expr : List Char) (hdr : Bool) (m : Finset (List Char)) :
    (get_license_text L p expr hdr (get_license_text L p expr hdr m).2).1
      = (get_license_text L p expr hdr m).1 ∧
    (get_license_text L p expr hdr (get_license_text L p expr hdr m).2).2
      = (get_license_text L p expr hdr m).2 := by
  constructor
  · exact get_license_text_fst L p expr hdr _ m
  · rw [get_license_text_snd, get_license_text_snd]
    by_cases hb : pyStrip expr = []
    · simp [hb]
    · simp [hb, Finset.union_assoc, Finset.union_idempotent]

/-- Claim C9: a leaf id present (case-insensitively) in the lookup table whose
text value is empty or whitespace-only renders to the empty string — no
`"For license:"` header and no dash divider are emitted — and nothing is
added to the unresolved-identifiers set. -/
theorem C9_blank_text_renders_empty (L : List (List Char × List Char)) (p : List Char)
    (m : Finset (List Char)) (w v : List Char) (hdr : Bool)
    (ho : lowerStr w ≠ s2l "others")
    (hv : dictGet (lowerStr w) L = some v)
    (hws : ∀ c ∈ v, pyIsSpace c = true) :
    renderNode L p hdr (.leaf w) m = ([], m) := by
  have hr : get_individual_license_text L p m w hdr
      = ((if hdr then s2l "For license: " ++ w else [], v), m) := by
    unfold get_individual_license_text
    rw [if_neg ho, hv]
  simp only [renderNode, hr]
  rw [if_pos (pyStrip_eq_nil hws)]

theorem C9_blank_text_renders_empty_witness :
    lowerStr (s2l "BSD") ≠ s2l "others" ∧
    dictGet (lowerStr (s2l "BSD")) [(s2l "bsd", s2l "  ")] = some (s2l "  ") ∧
    (∀ c ∈ s2l "  ", pyIsSpace c = true) ∧
    renderNode [(s2l "bsd", s2l "  ")] (s2l "licenses.yaml") true (.leaf (s2l "BSD")) ∅
      = ([], ∅) :=
  ⟨by decide, by decide, by decide,
    C9_blank_text_renders_empty [(s2l "bsd", s2l "  ")] (s2l "licenses.yaml") ∅
      (s2l "BSD") (s2l "  ") true (by decide) (by decide) (by decide)⟩
